import Mathlib

/-!
# librambutan: timer register map, PWM fast path and C start-up

A shallow embedding of `libmaple/timers.h` (register block layout, address
constants, identifier enumeration, prototypes, `timer_pwm_write_ccr`) and of
`wirish/start_c.c` (the `start_c` boot routine), with the properties of the
specification proved over it.

Conventions: addresses are natural numbers, memory is byte addressed and
little-endian (Cortex-M3), `uint16` values are naturals below `2^16`. In the
start-up code pointers are 32 bits wide: pointer arithmetic and the addresses
of its 8-byte accesses wrap around at `2^32`, and its loops are observed for a
bounded number of iterations.
-/

namespace Librambutan

/-! ## C object types used by the headers -/

/-- The fixed-width integer types of libmaple that occur in `timers.h`. -/
inductive IntType where
  | uint8
  | uint16
  deriving DecidableEq, Repr

/-- Size in bytes (`sizeof`). -/
def IntType.sizeof : IntType → Nat
  | .uint8 => 1
  | .uint16 => 2

/-- Alignment requirement in bytes: a scalar is aligned to its size. -/
def IntType.alignof : IntType → Nat
  | .uint8 => 1
  | .uint16 => 2

/-- Member names of `timer_port`, in declaration order. -/
inductive Field where
  | CR1 | RESERVED0 | CR2 | RESERVED1 | SMCR | RESERVED2 | DIER | RESERVED3
  | SR | RESERVED4 | EGR | RESERVED5 | CCMR1 | RESERVED6 | CCMR2 | RESERVED7
  | CCER | RESERVED8 | CNT | RESERVED9 | PSC | RESERVED10 | ARR | RESERVED11
  | RCR | RESERVED12 | CCR1 | RESERVED13 | CCR2 | RESERVED14 | CCR3 | RESERVED15
  | CCR4 | RESERVED16 | BDTR | RESERVED17 | DCR | RESERVED18 | DMAR | RESERVED19
  deriving DecidableEq, Repr

/-- One member declaration of a struct: name, type and the `volatile` qualifier. -/
structure Member where
  name : Field
  ty : IntType
  isVolatile : Bool
  deriving DecidableEq, Repr

/-- A register member: `volatile uint16 NAME;`. -/
def reg (f : Field) : Member := ⟨f, .uint16, true⟩

/-- A padding member: `uint16 RESERVEDn;`. -/
def gap (f : Field) : Member := ⟨f, .uint16, false⟩

/-- The member list of `timer_port` as declared. -/
def timer_port : List Member :=
  [ reg .CR1,   gap .RESERVED0,
    reg .CR2,   gap .RESERVED1,
    reg .SMCR,  gap .RESERVED2,
    reg .DIER,  gap .RESERVED3,
    reg .SR,    gap .RESERVED4,
    reg .EGR,   gap .RESERVED5,
    reg .CCMR1, gap .RESERVED6,
    reg .CCMR2, gap .RESERVED7,
    reg .CCER,  gap .RESERVED8,
    reg .CNT,   gap .RESERVED9,
    reg .PSC,   gap .RESERVED10,
    reg .ARR,   gap .RESERVED11,
    reg .RCR,   gap .RESERVED12,
    reg .CCR1,  gap .RESERVED13,
    reg .CCR2,  gap .RESERVED14,
    reg .CCR3,  gap .RESERVED15,
    reg .CCR4,  gap .RESERVED16,
    reg .BDTR,  gap .RESERVED17,
    reg .DCR,   gap .RESERVED18,
    reg .DMAR,  gap .RESERVED19 ]

/-- Round `off` up to the next multiple of `a`. -/
def alignUp (off a : Nat) : Nat := (off + a - 1) / a * a

/-- C struct layout: every member is placed at the first suitably aligned
offset at or after the end of the previous one. -/
def layoutFrom (off : Nat) : List Member → List (Member × Nat)
  | [] => []
  | m :: ms =>
    let o := alignUp off m.ty.alignof
    (m, o) :: layoutFrom (o + m.ty.sizeof) ms

/-- Byte offset of a member inside a struct (`offsetof`). -/
def offsetof (s : List Member) (f : Field) : Option Nat :=
  ((layoutFrom 0 s).find? (fun p => p.1.name = f)).map (fun p => p.2)

/-- End of the last member when the layout starts at `off`. -/
def layoutEnd (off : Nat) : List Member → Nat
  | [] => off
  | m :: ms => layoutEnd (alignUp off m.ty.alignof + m.ty.sizeof) ms

/-- Size of a struct (`sizeof`): the end of the last member rounded up to the
largest member alignment. -/
def structSize (s : List Member) : Nat :=
  alignUp (layoutEnd 0 s) ((s.map (fun m => m.ty.alignof)).foldl max 1)

/-- The registers of a block: its `volatile` members, in address order. -/
def registers (s : List Member) : List Field :=
  (s.filter (fun m => m.isVolatile)).map (fun m => m.name)

/-- The twenty register names in the order the specification lists them. -/
def specRegisterOrder : List Field :=
  [.CR1, .CR2, .SMCR, .DIER, .SR, .EGR, .CCMR1, .CCMR2, .CCER, .CNT, .PSC, .ARR,
   .RCR, .CCR1, .CCR2, .CCR3, .CCR4, .BDTR, .DCR, .DMAR]

/-- Shape of a block in which every register is a `volatile uint16` followed by
exactly one plain `uint16` gap. -/
def alternates : List Member → Bool
  | r :: g :: rest =>
    r.isVolatile && r.ty == IntType.uint16 && !g.isVolatile && g.ty == IntType.uint16 &&
      alternates rest
  | [] => true
  | [_] => false

/-! ## Address constants (timers.h, lines 87-135) -/

def TIMER1_BASE : Nat := 0x40012C00
def TIMER2_BASE : Nat := 0x40000000
def TIMER3_BASE : Nat := 0x40000400
def TIMER4_BASE : Nat := 0x40000800
def TIMER5_BASE : Nat := 0x40000C00
def TIMER6_BASE : Nat := 0x40001000
def TIMER7_BASE : Nat := 0x40001400
def TIMER8_BASE : Nat := 0x40013400

def NOT_A_TIMER : Nat := 0

def TIMER1_CH1_CCR : Nat := TIMER1_BASE + 0x34
def TIMER1_CH2_CCR : Nat := TIMER1_BASE + 0x38
def TIMER1_CH3_CCR : Nat := TIMER1_BASE + 0x3C
def TIMER1_CH4_CCR : Nat := TIMER1_BASE + 0x40

def TIMER2_CH1_CCR : Nat := TIMER2_BASE + 0x34
def TIMER2_CH2_CCR : Nat := TIMER2_BASE + 0x38
def TIMER2_CH3_CCR : Nat := TIMER2_BASE + 0x3C
def TIMER2_CH4_CCR : Nat := TIMER2_BASE + 0x40

def TIMER3_CH1_CCR : Nat := TIMER3_BASE + 0x34
def TIMER3_CH2_CCR : Nat := TIMER3_BASE + 0x38
def TIMER3_CH3_CCR : Nat := TIMER3_BASE + 0x3C
def TIMER3_CH4_CCR : Nat := TIMER3_BASE + 0x40

def TIMER4_CH1_CCR : Nat := TIMER4_BASE + 0x34
def TIMER4_CH2_CCR : Nat := TIMER4_BASE + 0x38
def TIMER4_CH3_CCR : Nat := TIMER4_BASE + 0x3C
def TIMER4_CH4_CCR : Nat := TIMER4_BASE + 0x40

def TIMER5_CH1_CCR : Nat := TIMER5_BASE + 0x34
def TIMER5_CH2_CCR : Nat := TIMER5_BASE + 0x38
def TIMER5_CH3_CCR : Nat := TIMER5_BASE + 0x3C
def TIMER5_CH4_CCR : Nat := TIMER5_BASE + 0x40

def TIMER8_CH1_CCR : Nat := TIMER8_BASE + 0x34
def TIMER8_CH2_CCR : Nat := TIMER8_BASE + 0x38
def TIMER8_CH3_CCR : Nat := TIMER8_BASE + 0x3C
def TIMER8_CH4_CCR : Nat := TIMER8_BASE + 0x40

/-- Base address of hardware timer `n` (`TIMERn_BASE`), for `n` in 1..8. -/
def timerBase : Nat → Option Nat
  | 1 => some TIMER1_BASE
  | 2 => some TIMER2_BASE
  | 3 => some TIMER3_BASE
  | 4 => some TIMER4_BASE
  | 5 => some TIMER5_BASE
  | 6 => some TIMER6_BASE
  | 7 => some TIMER7_BASE
  | 8 => some TIMER8_BASE
  | _ => none

/-- The fast-path constant `TIMERn_CHc_CCR`, where the header defines one. -/
def timerChCCR : Nat → Nat → Option Nat
  | 1, 1 => some TIMER1_CH1_CCR
  | 1, 2 => some TIMER1_CH2_CCR
  | 1, 3 => some TIMER1_CH3_CCR
  | 1, 4 => some TIMER1_CH4_CCR
  | 2, 1 => some TIMER2_CH1_CCR
  | 2, 2 => some TIMER2_CH2_CCR
  | 2, 3 => some TIMER2_CH3_CCR
  | 2, 4 => some TIMER2_CH4_CCR
  | 3, 1 => some TIMER3_CH1_CCR
  | 3, 2 => some TIMER3_CH2_CCR
  | 3, 3 => some TIMER3_CH3_CCR
  | 3, 4 => some TIMER3_CH4_CCR
  | 4, 1 => some TIMER4_CH1_CCR
  | 4, 2 => some TIMER4_CH2_CCR
  | 4, 3 => some TIMER4_CH3_CCR
  | 4, 4 => some TIMER4_CH4_CCR
  | 5, 1 => some TIMER5_CH1_CCR
  | 5, 2 => some TIMER5_CH2_CCR
  | 5, 3 => some TIMER5_CH3_CCR
  | 5, 4 => some TIMER5_CH4_CCR
  | 8, 1 => some TIMER8_CH1_CCR
  | 8, 2 => some TIMER8_CH2_CCR
  | 8, 3 => some TIMER8_CH3_CCR
  | 8, 4 => some TIMER8_CH4_CCR
  | _, _ => none

/-- The member `CCRc` of `timer_port` for channel `c` in 1..4. -/
def ccrField : Nat → Option Field
  | 1 => some .CCR1
  | 2 => some .CCR2
  | 3 => some .CCR3
  | 4 => some .CCR4
  | _ => none

/-- Timers that have fast-path constants: 1, 2, 3, 4, 5 and 8. -/
def pwmTimers : List Nat := [1, 2, 3, 4, 5, 8]

/-- Every hardware timer with a base address: 1..8. -/
def allTimers : List Nat := [1, 2, 3, 4, 5, 6, 7, 8]

/-- The four channel numbers. -/
def channels : List Nat := [1, 2, 3, 4]

/-- Does a 2-byte access at `addr` touch any byte of the member of the block
at `base` that the layout places at offset `off` with the size of `m`? -/
def touches (addr base : Nat) (p : Member × Nat) : Bool :=
  decide (addr < base + p.2 + p.1.ty.sizeof) && decide (base + p.2 < addr + 2)

/-- Every (timer, member) pair of any timer block that a 2-byte access at
`addr` touches. -/
def fieldsTouched (addr : Nat) : List (Nat × Field) :=
  allTimers.flatMap (fun n =>
    match timerBase n with
    | some base =>
      ((layoutFrom 0 timer_port).filter (touches addr base)).map (fun p => (n, p.1.name))
    | none => [])

/-! ## Timer identifiers (timers.h, lines 199-216) -/

/-- The enumerators that can occur in `timer_dev_num`. -/
inductive TimerName where
  | TIMER1 | TIMER2 | TIMER3 | TIMER4 | TIMER5 | TIMER8 | TIMER_INVALID
  deriving DecidableEq, Repr

/-- The enumerator list of `timer_dev_num` as the preprocessor leaves it for a
build with the given `NR_TIMERS` (the block under `#if NR_TIMERS >= 8`). -/
def timer_dev_num (NR_TIMERS : Nat) : List TimerName :=
  [.TIMER1, .TIMER2, .TIMER3, .TIMER4] ++
    (if NR_TIMERS ≥ 8 then [.TIMER5, .TIMER8] else []) ++
    [.TIMER_INVALID]

/-- C enumeration rule without explicit initialisers: the first enumerator has
the value `next`, every later one the value of its predecessor plus one. -/
def enumValueFrom (next : Nat) (x : TimerName) : List TimerName → Option Nat
  | [] => none
  | e :: es => if e = x then some next else enumValueFrom (next + 1) x es

/-- The value of enumerator `x` in an enumeration that starts at 0. -/
def enumValue (l : List TimerName) (x : TimerName) : Option Nat := enumValueFrom 0 x l

/-- The valid logical timers of a build: every enumerator but the sentinel. -/
def validTimers (NR_TIMERS : Nat) : List TimerName :=
  (timer_dev_num NR_TIMERS).filter (fun t => t ≠ TimerName.TIMER_INVALID)

/-- The enumerators of a build whose value is `id`. -/
def denotes (NR_TIMERS id : Nat) : List TimerName :=
  (timer_dev_num NR_TIMERS).filter
    (fun t => enumValue (timer_dev_num NR_TIMERS) t = some id)

/-- An identifier check that rejects exactly the sentinel and the values out of
the range of the enumeration: it accepts `id` when `id` is the value of an
enumerator other than `TIMER_INVALID`. -/
def acceptsTimerId (NR_TIMERS id : Nat) : Bool :=
  (denotes NR_TIMERS id).any (fun t => t ≠ TimerName.TIMER_INVALID)

/-! ## Prototypes (timers.h, lines 228-259) -/

/-- The expansion of `TIMER_CCR(NUM,CHAN)`, that is
`(TIMER ## NUM ## _CH ## CHAN ## _CRR)`: token pasting concatenates the
spellings of the arguments with the fixed pieces into one identifier. -/
def TIMER_CCR (NUM CHAN : String) : String :=
  "TIMER" ++ NUM ++ "_CH" ++ CHAN ++ "_CRR"

/-- The identifier `TIMER<NUM>_CH<CHAN>_CCR`, the pattern of the names of the
register constants. -/
def ccrConstantName (NUM CHAN : String) : String :=
  "TIMER" ++ NUM ++ "_CH" ++ CHAN ++ "_CCR"

/-- The register constants of the header by name. -/
def ccrConstants : List (String × Nat) :=
  [ ("TIMER1_CH1_CCR", TIMER1_CH1_CCR), ("TIMER1_CH2_CCR", TIMER1_CH2_CCR),
    ("TIMER1_CH3_CCR", TIMER1_CH3_CCR), ("TIMER1_CH4_CCR", TIMER1_CH4_CCR),
    ("TIMER2_CH1_CCR", TIMER2_CH1_CCR), ("TIMER2_CH2_CCR", TIMER2_CH2_CCR),
    ("TIMER2_CH3_CCR", TIMER2_CH3_CCR), ("TIMER2_CH4_CCR", TIMER2_CH4_CCR),
    ("TIMER3_CH1_CCR", TIMER3_CH1_CCR), ("TIMER3_CH2_CCR", TIMER3_CH2_CCR),
    ("TIMER3_CH3_CCR", TIMER3_CH3_CCR), ("TIMER3_CH4_CCR", TIMER3_CH4_CCR),
    ("TIMER4_CH1_CCR", TIMER4_CH1_CCR), ("TIMER4_CH2_CCR", TIMER4_CH2_CCR),
    ("TIMER4_CH3_CCR", TIMER4_CH3_CCR), ("TIMER4_CH4_CCR", TIMER4_CH4_CCR),
    ("TIMER5_CH1_CCR", TIMER5_CH1_CCR), ("TIMER5_CH2_CCR", TIMER5_CH2_CCR),
    ("TIMER5_CH3_CCR", TIMER5_CH3_CCR), ("TIMER5_CH4_CCR", TIMER5_CH4_CCR),
    ("TIMER8_CH1_CCR", TIMER8_CH1_CCR), ("TIMER8_CH2_CCR", TIMER8_CH2_CCR),
    ("TIMER8_CH3_CCR", TIMER8_CH3_CCR), ("TIMER8_CH4_CCR", TIMER8_CH4_CCR) ]

/-- Every name the header gives a `#define` to. -/
def definedNames : List String :=
  ["_TIMERS_H_",
   "TIMER1_BASE", "TIMER2_BASE", "TIMER3_BASE", "TIMER4_BASE",
   "TIMER5_BASE", "TIMER6_BASE", "TIMER7_BASE", "TIMER8_BASE",
   "ARPE", "NOT_A_TIMER", "TIMER_CCR"] ++ ccrConstants.map (fun p => p.1)

/-- The address a name denotes as a register constant of this header. -/
def ccrConstantValue (name : String) : Option Nat :=
  (ccrConstants.find? (fun p => p.1 = name)).map (fun p => p.2)

/-- The last three characters of a name, last one first. -/
def lastThree (name : String) : List Char := name.data.reverse.take 3

/-! ## Byte-addressed memory -/

/-- Memory: a byte at every address. -/
abbrev Mem := Nat → Fin 256

/-- Byte `k` (little-endian) of the value `v`. -/
def byteOf (v k : Nat) : Fin 256 := ⟨v / 256 ^ k % 256, Nat.mod_lt _ (by decide)⟩

/-- 16-bit load. -/
def load16 (m : Mem) (a : Nat) : Nat := (m a).val + 256 * (m (a + 1)).val

/-- 16-bit store: the two bytes at `a` and `a + 1` take the low 16 bits of `v`. -/
def store16 (m : Mem) (a v : Nat) : Mem :=
  fun x => if a ≤ x ∧ x < a + 2 then byteOf v (x - a) else m x

/-- A pointer value of the 32-bit target: addresses wrap around at `2^32`. -/
def ptr32 (a : Nat) : Nat := a % 4294967296

/-- 32-bit load of the four bytes from `a`, each address taken in the 32-bit
address space. -/
def load32 (m : Mem) (a : Nat) : Nat :=
  (m (ptr32 a)).val + 256 * ((m (ptr32 (a + 1))).val + 256 * ((m (ptr32 (a + 2))).val +
    256 * (m (ptr32 (a + 3))).val))

/-- 64-bit load (`long long`) of the eight bytes from `a`, each address taken
in the 32-bit address space. -/
def load64 (m : Mem) (a : Nat) : Nat :=
  (m (ptr32 a)).val + 256 * ((m (ptr32 (a + 1))).val + 256 * ((m (ptr32 (a + 2))).val +
    256 * ((m (ptr32 (a + 3))).val + 256 * ((m (ptr32 (a + 4))).val +
    256 * ((m (ptr32 (a + 5))).val + 256 * ((m (ptr32 (a + 6))).val +
    256 * (m (ptr32 (a + 7))).val))))))

/-- 64-bit store (`long long`): byte `k` (0..7) of the low 64 bits of `v` goes
to the address `ptr32 (a + k)`; `x` is such an address exactly when it lies in
the address space and its distance from `ptr32 a`, counted around `2^32`, is
below 8. -/
def store64 (m : Mem) (a v : Nat) : Mem :=
  fun x =>
    if x < 4294967296 ∧ (x + 4294967296 - ptr32 a) % 4294967296 < 8 then
      byteOf v ((x + 4294967296 - ptr32 a) % 4294967296)
    else m x

/-! ## PWM fast path (timers.h, lines 274-276) -/

/-- The body `*CCR = duty_cycle;`: `CCR` points to a `volatile uint16`, and
`duty_cycle` is a `uint16` parameter, so the argument is taken modulo `2^16`. -/
def timer_pwm_write_ccr (m : Mem) (CCR : Nat) (duty_cycle : Nat) : Mem :=
  store16 m CCR (duty_cycle % 65536)

/-! ## Timer API on the register block

The header only declares the API functions and `timer_dev_table`; their
bodies and the table content are defined elsewhere. What follows models the
three operations of the compare round trip from the specification. -/

/-- The modes of `TimerMode` (timers.h, lines 140-151). -/
inductive TimerMode where
  | TIMER_DISABLED
  | TIMER_PWM
  | TIMER_OUTPUTCOMPARE
  deriving DecidableEq, Repr

/-- The timer descriptor `struct timer_dev` (timers.h, lines 219-224): the
address of the register block, the clock and interrupt identifiers, and the
four handler slots (0 for an empty slot). -/
structure timer_dev where
  base : Nat
  rcc_dev_num : Nat
  nvic_dev_num : Nat
  handlers : Fin 4 → Nat

/-- Modelled from the spec: the error taxonomy of section 7, `InvalidTimer` and
`InvalidChannel`; the header declares no such type. -/
inductive TimerError where
  | InvalidTimer
  | InvalidChannel
  deriving DecidableEq, Repr

/-- Modelled from the spec: `resolve(timer_id)` of section 4.1, which the
header does not declare. The descriptor table holds one descriptor per logical timer, indexed
by the identifier value; resolving the sentinel or any other value outside the
table fails with `InvalidTimer`. The table content is a parameter. -/
def resolve (timer_dev_table : List timer_dev) (timer_id : Nat) : Except TimerError timer_dev :=
  match timer_dev_table[timer_id]? with
  | some dev => Except.ok dev
  | none => Except.error TimerError.InvalidTimer

/-- The address of member `f` in the register block of a descriptor. -/
def regAddr (dev : timer_dev) (f : Field) : Nat :=
  dev.base + (offsetof timer_port f).getD 0

/-- Modelled from the spec: the bit patterns `set_mode` writes are not given;
they are a parameter: the new content of the mode register (`ccmr`) and of the
enable register (`ccer`) from the mode, the channel and the old content. -/
structure ModeBits where
  ccmr : TimerMode → Nat → Nat → Nat
  ccer : TimerMode → Nat → Nat → Nat

/-- Modelled from the spec: `set_mode(timer_id, channel, mode)` of section 4.3,
whose body the header does not give. It resolves the descriptor, fails with
`InvalidChannel` outside 1..4, and writes the capture/compare-mode register
(CCMR1 for channels 1-2, CCMR2 for channels 3-4) and the output-enable bits in
CCER. -/
def timer_set_mode (tbl : List timer_dev) (bits : ModeBits) (m : Mem)
    (timer_num channel_num : Nat) (mode : TimerMode) : Except TimerError Mem :=
  match resolve tbl timer_num with
  | Except.error e => Except.error e
  | Except.ok dev =>
    if channel_num < 1 ∨ 4 < channel_num then Except.error TimerError.InvalidChannel
    else
      let ccmr := if channel_num ≤ 2 then Field.CCMR1 else Field.CCMR2
      let m1 := store16 m (regAddr dev ccmr)
        (bits.ccmr mode channel_num (load16 m (regAddr dev ccmr)) % 65536)
      Except.ok (store16 m1 (regAddr dev Field.CCER)
        (bits.ccer mode channel_num (load16 m1 (regAddr dev Field.CCER)) % 65536))

/-- Modelled from the spec: `set_compare_value(timer_id, channel, value)` of
section 4.3, whose body the header does not give: a write of the channel's
capture/compare register (CCR1..CCR4), with no mode check. -/
def timer_set_compare_value (tbl : List timer_dev) (m : Mem)
    (timer_num channel_num value : Nat) : Except TimerError Mem :=
  match resolve tbl timer_num with
  | Except.error e => Except.error e
  | Except.ok dev =>
    match ccrField channel_num with
    | none => Except.error TimerError.InvalidChannel
    | some f => Except.ok (store16 m (regAddr dev f) (value % 65536))

/-- Modelled from the spec: `get_compare_value(timer_id, channel)` of section
4.3, whose body the header does not give: a read of the channel's
capture/compare register (CCR1..CCR4), with no mode check. -/
def timer_get_compare_value (tbl : List timer_dev) (m : Mem)
    (timer_num channel_num : Nat) : Except TimerError Nat :=
  match resolve tbl timer_num with
  | Except.error e => Except.error e
  | Except.ok dev =>
    match ccrField channel_num with
    | none => Except.error TimerError.InvalidChannel
    | some f => Except.ok (load16 m (regAddr dev f))

/-- A descriptor table for a build with timers 1..4: one descriptor per valid
identifier, at the base addresses of the header. -/
def sampleTable : List timer_dev :=
  [ ⟨TIMER1_BASE, 0, 0, fun _ => 0⟩, ⟨TIMER2_BASE, 1, 1, fun _ => 0⟩,
    ⟨TIMER3_BASE, 2, 2, fun _ => 0⟩, ⟨TIMER4_BASE, 3, 3, fun _ => 0⟩ ]

/-- Mode bits that leave both registers as they are. -/
def sampleBits : ModeBits := ⟨fun _ _ old => old, fun _ _ old => old⟩

/-- The null pointer. -/
def NULL : Nat := 0

/-- Addresses of the linker-provided symbols `_data`, `_edata`, `_bss`, `_ebss`
and `_lm_rom_img_cfgp`; each is an address of the 32-bit target. -/
structure LinkerSyms where
  _data : Nat
  _edata : Nat
  _bss : Nat
  _ebss : Nat
  _lm_rom_img_cfgp : Nat
  data_lt : _data < 4294967296 := by decide
  edata_lt : _edata < 4294967296 := by decide
  bss_lt : _bss < 4294967296 := by decide
  ebss_lt : _ebss < 4294967296 := by decide
  cfgp_lt : _lm_rom_img_cfgp < 4294967296 := by decide

/-- What `start_c` does that is visible from outside, in program order: the
8-byte stores of its two loops and its calls, each call with the memory it is
entered with. -/
inductive Event where
  | store (dst val : Nat)
  | libc_init_array (mem : Mem)
  | main (mem : Mem) (argc : Int) (argv envp : Nat)
  | exit (mem : Mem) (code : Int)

/-- The functions `start_c` calls. `__libc_init_array` and `main` are ordinary
calls: they take the memory and give it back changed (`main` with its `int`
result). `exit` is a weak symbol: `none` when nothing is linked; when linked
it is entered with the memory and the code, and its result is `none` when it
keeps control (as its `noreturn` declaration says) or the memory it would
come back with. -/
structure Callees where
  libc_init_array : Mem → Mem
  main : Mem → Int → Nat → Nat → Mem × Int
  exit : Option (Mem → Int → Option Mem)

/-- Machine state threaded through `start_c`: memory and the events so far. -/
structure St where
  mem : Mem
  trace : List Event

/-- How the observation of a `while` loop ends: the condition became false
(`done`), or the iterations observed were used up with the condition still
true (`running`). -/
inductive LoopResult where
  | done (s : St)
  | running (s : St)

/-- The state a loop observation ends in. -/
def LoopResult.state : LoopResult → St
  | LoopResult.done s => s
  | LoopResult.running s => s

/-- The loop `while (dst < (long long*)&_edata) { *dst++ = *src++; }`, observed
for at most `fuel` iterations; `src` and `dst` are 32-bit pointers, so `++`
(eight bytes further) wraps around at `2^32`. -/
def copyLoop (edata : Nat) : Nat → St → Nat → Nat → LoopResult
  | 0, s, _, dst => if dst < edata then LoopResult.running s else LoopResult.done s
  | fuel + 1, s, src, dst =>
    if dst < edata then
      copyLoop edata fuel
        ⟨store64 s.mem dst (load64 s.mem src),
          s.trace ++ [Event.store dst (load64 s.mem src)]⟩
        (ptr32 (src + 8)) (ptr32 (dst + 8))
    else LoopResult.done s

/-- The loop `while (dst < (long long*)&_ebss) { *dst++ = 0; }`, observed for at
most `fuel` iterations; `dst` is a 32-bit pointer, so `++` wraps around at
`2^32`. -/
def zeroLoop (ebss : Nat) : Nat → St → Nat → LoopResult
  | 0, s, dst => if dst < ebss then LoopResult.running s else LoopResult.done s
  | fuel + 1, s, dst =>
    if dst < ebss then
      zeroLoop ebss fuel ⟨store64 s.mem dst 0, s.trace ++ [Event.store dst 0]⟩
        (ptr32 (dst + 8))
    else LoopResult.done s

/-- How the observation of a run of `start_c` ends: inside `exit`, inside the
final `for (;;)`, still inside the copy or the zeroing loop (`busy`), or by
reaching the end of the function (`returned`). -/
inductive Outcome where
  | exited (code : Int)
  | looping
  | busy
  | returned
  deriving DecidableEq, Repr

/-- The loop `for (;;) continue;` observed for `fuel` iterations: it has no
condition and no `break`, every iteration goes round again, and when the
observation ends control is still inside the loop. -/
def spin : Nat → Outcome
  | 0 => Outcome.looping
  | fuel + 1 => spin fuel

/-- A run of `start_c`: its events and how it ends. -/
structure Run where
  trace : List Event
  outcome : Outcome

/-- The value `img_cfg->img_start`: the 32-bit pointer stored at
`&_lm_rom_img_cfgp`. -/
def img_start (m : Mem) (sym : LinkerSyms) : Nat := load32 m sym._lm_rom_img_cfgp

/-- The function `start_c`, run from memory `m0`; `fuel` bounds the number of
iterations for which each of its loops is observed. -/
def start_c (ext : Callees) (sym : LinkerSyms) (m0 : Mem) (fuel : Nat) : Run :=
  let src := img_start m0 sym
  let dst := sym._data
  -- Initialize .data, if necessary.
  match (if src ≠ dst then copyLoop sym._edata fuel ⟨m0, []⟩ src dst
      else LoopResult.done ⟨m0, []⟩) with
  | LoopResult.running s => ⟨s.trace, Outcome.busy⟩
  | LoopResult.done s1 =>
    -- Zero .bss.
    match zeroLoop sym._ebss fuel s1 sym._bss with
    | LoopResult.running s => ⟨s.trace, Outcome.busy⟩
    | LoopResult.done s2 =>
      -- Run initializers.
      let s3 : St :=
        ⟨ext.libc_init_array s2.mem, s2.trace ++ [Event.libc_init_array s2.mem]⟩
      let r := ext.main s3.mem 0 NULL NULL
      let s4 : St := ⟨r.1, s3.trace ++ [Event.main s3.mem 0 NULL NULL]⟩
      let exit_code := r.2
      match ext.exit with
      | some exit_fn =>
        match exit_fn s4.mem exit_code with
        | none => ⟨s4.trace ++ [Event.exit s4.mem exit_code], Outcome.exited exit_code⟩
        | some _ => ⟨s4.trace ++ [Event.exit s4.mem exit_code], spin fuel⟩
      | none => ⟨s4.trace, spin fuel⟩

/-- The observation of `start_c` up to the end of the `.data` phase (the
guarded copy loop). -/
def afterCopy (sym : LinkerSyms) (m0 : Mem) (fuel : Nat) : LoopResult :=
  if img_start m0 sym ≠ sym._data then
    copyLoop sym._edata fuel ⟨m0, []⟩ (img_start m0 sym) sym._data
  else LoopResult.done ⟨m0, []⟩

/-- The observation of `start_c` up to the end of the `.bss` phase; when it is
`done`, its state is the one in which `__libc_init_array` is called. -/
def afterZero (sym : LinkerSyms) (m0 : Mem) (fuel : Nat) : LoopResult :=
  match afterCopy sym m0 fuel with
  | LoopResult.running s => LoopResult.running s
  | LoopResult.done s1 => zeroLoop sym._ebss fuel s1 sym._bss

/-- The events of `start_c` after `main` has returned `r`: the call of `exit`
when it is linked, nothing otherwise. -/
def exitEvents (ext : Callees) (r : Mem × Int) : List Event :=
  match ext.exit with
  | some _ => [Event.exit r.1 r.2]
  | none => []

/-- The events of `start_c` from the call of `__libc_init_array` on, when the
loops have left the memory `m`. -/
def callEvents (ext : Callees) (m : Mem) : List Event :=
  [Event.libc_init_array m, Event.main (ext.libc_init_array m) 0 NULL NULL] ++
    exitEvents ext (ext.main (ext.libc_init_array m) 0 NULL NULL)

/-- How `start_c` ends once `main` has returned `r`. -/
def exitOutcome (ext : Callees) (r : Mem × Int) : Outcome :=
  match ext.exit with
  | none => Outcome.looping
  | some exit_fn =>
    match exit_fn r.1 r.2 with
    | none => Outcome.exited r.2
    | some _ => Outcome.looping

/-- The events of a trace that are stores. -/
def isStore : Event → Bool
  | Event.store _ _ => true
  | _ => false

/-- The events of a trace that are calls of `__libc_init_array`. -/
def isInitCall : Event → Bool
  | Event.libc_init_array _ => true
  | _ => false

/-- The events of a trace that are calls of `main`. -/
def isMainCall : Event → Bool
  | Event.main _ _ _ _ => true
  | _ => false

/-- The codes `exit` is called with in a trace, in order. -/
def exitCodes : List Event → List Int
  | [] => []
  | Event.exit _ code :: es => code :: exitCodes es
  | _ :: es => exitCodes es

/-- The memory that results from performing the stores of a trace in order. -/
def applyStores : List Event → Mem → Mem
  | [], m => m
  | Event.store dst val :: es, m => applyStores es (store64 m dst val)
  | _ :: es, m => applyStores es m

/-- A small memory map to run `start_c` on: 16 bytes of `.data` at
0x20000000, 16 bytes of `.bss` right after it, the image configuration word at
0x08000104. -/
def sampleSyms : LinkerSyms :=
  { _data := 0x20000000, _edata := 0x20000010, _bss := 0x20000010, _ebss := 0x20000020,
    _lm_rom_img_cfgp := 0x08000104 }

/-- A memory map whose `.bss` region ends above the last 8-byte step of the
address space: empty `.data`, `.bss` from 0xFFFFFFF8 to 0xFFFFFFFC. -/
def wrapSyms : LinkerSyms :=
  { _data := 0x20000000, _edata := 0x20000000, _bss := 0xFFFFFFF8, _ebss := 0xFFFFFFFC,
    _lm_rom_img_cfgp := 0x08000104 }

/-- A memory in which every byte holds the low 8 bits of its address, so the
configuration word of `sampleSyms` reads 0x07060504 and the image there
(bytes 4, 5, ...) differs from what `.data` holds (bytes 0, 1, ...). -/
def sampleMem : Mem := fun a => ⟨a % 256, Nat.mod_lt _ (by decide)⟩

/-- Callees that leave memory alone: `main` returns 3 and `exit` keeps control. -/
def sampleCallees : Callees :=
  { libc_init_array := fun m => m
    main := fun m _ _ _ => (m, 3)
    exit := some (fun _ _ => none) }

/-- Callees whose initializers write one byte of `.data` and one byte of `.bss`
of `sampleSyms`. -/
def writingCallees : Callees :=
  { libc_init_array := fun m x =>
      if x = 0x20000001 then 0xAA else if x = 0x20000011 then 0xBB else m x
    main := fun m _ _ _ => (m, 3)
    exit := some (fun _ _ => none) }

/-! # Theorems -/

/-! ## Register block layout -/

/-- C1: in `timer_port` the registers are, in address order, CR1, CR2, SMCR,
DIER, SR, EGR, CCMR1, CCMR2, CCER, CNT, PSC, ARR, RCR, CCR1, CCR2, CCR3, CCR4,
BDTR, DCR, DMAR; each is a 16-bit member followed by exactly one 16-bit
reserved member; the k-th register lies at byte offset `4 * k` (CR1 at 0x00,
ARR at 0x2C, CCR1 at 0x34, DMAR at 0x4C); the block is 0x50 bytes long. -/
theorem C1_timer_port_layout :
    registers timer_port = specRegisterOrder ∧
    specRegisterOrder.length = 20 ∧
    alternates timer_port = true ∧
    (∀ m ∈ timer_port, 8 * m.ty.sizeof = 16) ∧
    (∀ k : Fin 20, ∀ f, specRegisterOrder.get? k.val = some f →
      offsetof timer_port f = some (4 * k.val)) ∧
    offsetof timer_port .CR1 = some 0x00 ∧
    offsetof timer_port .ARR = some 0x2C ∧
    offsetof timer_port .CCR1 = some 0x34 ∧
    offsetof timer_port .DMAR = some 0x4C ∧
    structSize timer_port = 0x50 := by
  refine ⟨by decide, by decide, by decide, by decide, ?_, by decide, by decide, by decide,
    by decide, by decide⟩
  decide

/-! ## Memory lemmas -/

theorem byteOf_val (v k : Nat) : (byteOf v k).val = v / 256 ^ k % 256 := rfl

theorem store16_outside (m : Mem) (a v x : Nat) (h : ¬ (a ≤ x ∧ x < a + 2)) :
    store16 m a v x = m x := by
  simp only [store16, if_neg h]

theorem load16_store16 (m : Mem) (a v : Nat) (hv : v < 65536) :
    load16 (store16 m a v) a = v := by
  have h0 : store16 m a v a = byteOf v 0 := by
    simp [store16]
  have h1 : store16 m a v (a + 1) = byteOf v 1 := by
    simp [store16]
  rw [load16, h0, h1, byteOf_val, byteOf_val]
  norm_num
  omega

theorem load16_store16_disjoint (m : Mem) (a v r : Nat) (h : r + 2 ≤ a ∨ a + 2 ≤ r) :
    load16 (store16 m a v) r = load16 m r := by
  rw [load16, load16, store16_outside m a v r (by omega),
    store16_outside m a v (r + 1) (by omega)]

/-! ## PWM fast path -/

/-- C2: for every compare-register reference `CCR`, every memory and every
16-bit value `v` (0..65535), `timer_pwm_write_ccr` (a total function of the
memory, the reference and the value only: no error result, no timer identifier,
no mode) leaves the 16-bit register at `CCR` holding exactly `v`, leaves every
byte outside the two bytes of that register unchanged, and leaves every other
16-bit location that does not overlap it unchanged. -/
theorem C2_timer_pwm_write_ccr (m : Mem) (CCR v : Nat) (hv : v ≤ 65535) :
    load16 (timer_pwm_write_ccr m CCR v) CCR = v ∧
    (∀ x, ¬ (CCR ≤ x ∧ x < CCR + 2) → timer_pwm_write_ccr m CCR v x = m x) ∧
    (∀ r, r + 2 ≤ CCR ∨ CCR + 2 ≤ r →
      load16 (timer_pwm_write_ccr m CCR v) r = load16 m r) := by
  have hmod : v % 65536 = v := Nat.mod_eq_of_lt (by omega)
  unfold timer_pwm_write_ccr
  rw [hmod]
  exact ⟨load16_store16 m CCR v (by omega), fun x hx => store16_outside m CCR v x hx,
    fun r hr => load16_store16_disjoint m CCR v r hr⟩

/-- Witness for C2: writing 0x1234 through `TIMER2_CH1_CCR` into cleared memory. -/
theorem C2_timer_pwm_write_ccr_witness :
    load16 (timer_pwm_write_ccr (fun _ => 0) TIMER2_CH1_CCR 0x1234) TIMER2_CH1_CCR = 0x1234 ∧
    (∀ x, ¬ (TIMER2_CH1_CCR ≤ x ∧ x < TIMER2_CH1_CCR + 2) →
      timer_pwm_write_ccr (fun _ => 0) TIMER2_CH1_CCR 0x1234 x = (fun _ => 0 : Mem) x) ∧
    (∀ r, r + 2 ≤ TIMER2_CH1_CCR ∨ TIMER2_CH1_CCR + 2 ≤ r →
      load16 (timer_pwm_write_ccr (fun _ => 0) TIMER2_CH1_CCR 0x1234) r =
        load16 (fun _ => 0) r) :=
  C2_timer_pwm_write_ccr (fun _ => 0) TIMER2_CH1_CCR 0x1234 (by decide)

/-- C3: for every timer n in {1, 2, 3, 4, 5, 8} and every channel c in 1..4 the
constant `TIMERn_CHc_CCR` equals `TIMERn_BASE` plus the offset of member `CCRc`
in `timer_port`, that offset is `0x30 + 4 * c`, and a 16-bit access at that
address touches member `CCRc` of timer n and no other member (register or
reserved) of the register block of any of the timers 1..8. -/
theorem C3_fast_path_constants :
    ∀ n ∈ pwmTimers, ∀ c ∈ channels,
      ∃ base f off, timerBase n = some base ∧ ccrField c = some f ∧
        offsetof timer_port f = some off ∧ off = 0x30 + 4 * c ∧
        timerChCCR n c = some (base + off) ∧
        fieldsTouched (base + off) = [(n, f)] := by
  intro n hn c hc
  simp only [pwmTimers, channels, List.mem_cons, List.mem_singleton, List.not_mem_nil,
    or_false] at hn hc
  rcases hn with rfl | rfl | rfl | rfl | rfl | rfl <;>
    rcases hc with rfl | rfl | rfl | rfl <;>
    exact ⟨_, _, _, rfl, rfl, rfl, rfl, rfl, by decide⟩

/-- Witness for C3: timer 8, channel 4. -/
theorem C3_fast_path_constants_witness :
    8 ∈ pwmTimers ∧ 4 ∈ channels ∧
    ∃ base f off, timerBase 8 = some base ∧ ccrField 4 = some f ∧
      offsetof timer_port f = some off ∧ off = 0x30 + 4 * 4 ∧
      timerChCCR 8 4 = some (base + off) ∧
      fieldsTouched (base + off) = [(8, f)] :=
  ⟨by decide, by decide, C3_fast_path_constants 8 (by decide) 4 (by decide)⟩

/-! ## Start-up: memory accesses -/

theorem byteOf_load64 (m : Mem) (a k : Nat) (hk : k < 8) :
    byteOf (load64 m a) k = m (ptr32 (a + k)) := by
  apply Fin.ext
  rw [byteOf_val, load64]
  have h0 := (m (ptr32 a)).isLt
  have h1 := (m (ptr32 (a + 1))).isLt
  have h2 := (m (ptr32 (a + 2))).isLt
  have h3 := (m (ptr32 (a + 3))).isLt
  have h4 := (m (ptr32 (a + 4))).isLt
  have h5 := (m (ptr32 (a + 5))).isLt
  have h6 := (m (ptr32 (a + 6))).isLt
  have h7 := (m (ptr32 (a + 7))).isLt
  interval_cases k <;> norm_num <;> omega

theorem byteOf_zero (k : Nat) : byteOf 0 k = 0 := by
  apply Fin.ext
  simp [byteOf_val]

/-- Byte `k` of a 64-bit store lands at the wrapped address `ptr32 (a + k)`. -/
theorem store64_at (m : Mem) (a v k : Nat) (hk : k < 8) :
    store64 m a v (ptr32 (a + k)) = byteOf v k := by
  have hd : (ptr32 (a + k) + 4294967296 - ptr32 a) % 4294967296 = k := by
    simp only [ptr32]
    omega
  have hlt : ptr32 (a + k) < 4294967296 := Nat.mod_lt _ (by decide)
  simp only [store64, hd]
  rw [if_pos ⟨hlt, hk⟩]

/-- A 64-bit store changes no byte other than the eight at `ptr32 (a + k)`. -/
theorem store64_other (m : Mem) (a v x : Nat) (h : ∀ k, k < 8 → x ≠ ptr32 (a + k)) :
    store64 m a v x = m x := by
  have hn : ¬ (x < 4294967296 ∧ (x + 4294967296 - ptr32 a) % 4294967296 < 8) := by
    rintro ⟨h1, h2⟩
    apply h _ h2
    simp only [ptr32] at *
    omega
  simp only [store64]
  rw [if_neg hn]

/-- A 64-bit store below the top of the address space changes exactly the
bytes `a .. a + 7`. -/
theorem store64_inside (m : Mem) (a v x : Nat) (ha : a + 8 ≤ 4294967296)
    (h1 : a ≤ x) (h2 : x < a + 8) : store64 m a v x = byteOf v (x - a) := by
  have hx : x = ptr32 (a + (x - a)) := by
    simp only [ptr32]
    omega
  conv_lhs => rw [hx]
  exact store64_at m a v (x - a) (by omega)

theorem store64_outside (m : Mem) (a v x : Nat) (ha : a + 8 ≤ 4294967296)
    (h : x < a ∨ a + 8 ≤ x) : store64 m a v x = m x := by
  apply store64_other
  intro k hk
  simp only [ptr32]
  omega
/-! ## Start-up: loops -/

theorem copyLoop_exit (edata fuel : Nat) (s : St) (src dst : Nat) (h : ¬ dst < edata) :
    copyLoop edata fuel s src dst = LoopResult.done s := by
  cases fuel <;> simp only [copyLoop, if_neg h]

theorem copyLoop_step (edata fuel : Nat) (s : St) (src dst : Nat) (h : dst < edata) :
    copyLoop edata (fuel + 1) s src dst =
      copyLoop edata fuel
        ⟨store64 s.mem dst (load64 s.mem src),
          s.trace ++ [Event.store dst (load64 s.mem src)]⟩
        (ptr32 (src + 8)) (ptr32 (dst + 8)) := by
  simp only [copyLoop, if_pos h]

theorem copyLoop_stop (edata : Nat) (s : St) (src dst : Nat) (h : dst < edata) :
    copyLoop edata 0 s src dst = LoopResult.running s := by
  simp only [copyLoop, if_pos h]

theorem zeroLoop_exit (ebss fuel : Nat) (s : St) (dst : Nat) (h : ¬ dst < ebss) :
    zeroLoop ebss fuel s dst = LoopResult.done s := by
  cases fuel <;> simp only [zeroLoop, if_neg h]

theorem zeroLoop_step (ebss fuel : Nat) (s : St) (dst : Nat) (h : dst < ebss) :
    zeroLoop ebss (fuel + 1) s dst =
      zeroLoop ebss fuel ⟨store64 s.mem dst 0, s.trace ++ [Event.store dst 0]⟩
        (ptr32 (dst + 8)) := by
  simp only [zeroLoop, if_pos h]

theorem zeroLoop_stop (ebss : Nat) (s : St) (dst : Nat) (h : dst < ebss) :
    zeroLoop ebss 0 s dst = LoopResult.running s := by
  simp only [zeroLoop, if_pos h]

/-- However long it is observed and wherever its pointers are, the copy loop
only appends stores to the trace. -/
theorem copyLoop_stores (edata fuel : Nat) : ∀ (s : St) (src dst : Nat),
    ∃ l : List Event, (copyLoop edata fuel s src dst).state.trace = s.trace ++ l ∧
      ∀ e ∈ l, isStore e = true := by
  induction fuel with
  | zero =>
    intro s src dst
    refine ⟨[], ?_, by simp⟩
    by_cases h : dst < edata
    · rw [copyLoop_stop _ _ _ _ h, List.append_nil]
      rfl
    · rw [copyLoop_exit _ _ _ _ _ h, List.append_nil]
      rfl
  | succ fuel ih =>
    intro s src dst
    by_cases h : dst < edata
    · rw [copyLoop_step _ _ _ _ _ h]
      obtain ⟨l, hl, hs⟩ := ih
        ⟨store64 s.mem dst (load64 s.mem src),
          s.trace ++ [Event.store dst (load64 s.mem src)]⟩ (ptr32 (src + 8)) (ptr32 (dst + 8))
      refine ⟨Event.store dst (load64 s.mem src) :: l, ?_, ?_⟩
      · rw [hl]
        simp
      · intro e he
        rcases List.mem_cons.mp he with rfl | h2
        · rfl
        · exact hs e h2
    · refine ⟨[], ?_, by simp⟩
      rw [copyLoop_exit _ _ _ _ _ h, List.append_nil]
      rfl

/-- However long it is observed and wherever its pointer is, the zeroing loop
only appends stores to the trace. -/
theorem zeroLoop_stores (ebss fuel : Nat) : ∀ (s : St) (dst : Nat),
    ∃ l : List Event, (zeroLoop ebss fuel s dst).state.trace = s.trace ++ l ∧
      ∀ e ∈ l, isStore e = true := by
  induction fuel with
  | zero =>
    intro s dst
    refine ⟨[], ?_, by simp⟩
    by_cases h : dst < ebss
    · rw [zeroLoop_stop _ _ _ h, List.append_nil]
      rfl
    · rw [zeroLoop_exit _ _ _ _ h, List.append_nil]
      rfl
  | succ fuel ih =>
    intro s dst
    by_cases h : dst < ebss
    · rw [zeroLoop_step _ _ _ _ h]
      obtain ⟨l, hl, hs⟩ := ih
        ⟨store64 s.mem dst 0, s.trace ++ [Event.store dst 0]⟩ (ptr32 (dst + 8))
      refine ⟨Event.store dst 0 :: l, ?_, ?_⟩
      · rw [hl]
        simp
      · intro e he
        rcases List.mem_cons.mp he with rfl | h2
        · rfl
        · exact hs e h2
    · refine ⟨[], ?_, by simp⟩
      rw [zeroLoop_exit _ _ _ _ h, List.append_nil]
      rfl

/-- When `edata` leaves room for the last step (no pointer wraps) and enough
iterations are observed, the copy loop ends; its stores go to `dst`,
`dst + 8`, ... below `edata`, the i-th one storing the 8 bytes then found at
the source pointer `ptr32 (src + 8 * i)`, and they cover everything up to
`edata`. -/
theorem copyLoop_run (edata fuel : Nat) : ∀ (s : St) (src dst : Nat),
    edata + 8 ≤ 4294967296 → edata ≤ dst + 8 * fuel →
    ∃ l : List Event,
      copyLoop edata fuel s src dst = LoopResult.done ⟨applyStores l s.mem, s.trace ++ l⟩ ∧
      (∀ i, i < l.length →
        l[i]? = some (Event.store (dst + 8 * i)
          (load64 (applyStores (l.take i) s.mem) (ptr32 (src + 8 * i)))) ∧
        dst + 8 * i < edata) ∧
      edata ≤ dst + 8 * l.length := by
  induction fuel with
  | zero =>
    intro s src dst _ h
    refine ⟨[], ?_, ?_, ?_⟩
    · rw [copyLoop_exit _ _ _ _ _ (by omega)]
      simp [applyStores]
    · intro i hi
      simp at hi
    · simpa using h
  | succ fuel ih =>
    intro s src dst hw h
    by_cases hlt : dst < edata
    · rw [copyLoop_step _ _ _ _ _ hlt]
      have hd : ptr32 (dst + 8) = dst + 8 := Nat.mod_eq_of_lt (by omega)
      rw [hd]
      obtain ⟨l, hl, hidx, hlen⟩ := ih
        ⟨store64 s.mem dst (load64 s.mem src),
          s.trace ++ [Event.store dst (load64 s.mem src)]⟩ (ptr32 (src + 8)) (dst + 8)
        hw (by omega)
      refine ⟨Event.store dst (load64 s.mem src) :: l, ?_, ?_, ?_⟩
      · rw [hl]
        simp [applyStores]
      · intro i hi
        cases i with
        | zero =>
          refine ⟨?_, by omega⟩
          simp [applyStores, ptr32, load64]
        | succ j =>
          have hj : j < l.length := by simpa using hi
          obtain ⟨hv, hb⟩ := hidx j hj
          refine ⟨?_, by omega⟩
          rw [List.getElem?_cons_succ, hv]
          have e1 : dst + 8 + 8 * j = dst + 8 * (j + 1) := by omega
          have e2 : ptr32 (ptr32 (src + 8) + 8 * j) = ptr32 (src + 8 * (j + 1)) := by
            simp only [ptr32]
            omega
          rw [e1, e2]
          rfl
      · simp only [List.length_cons]
        omega
    · refine ⟨[], ?_, ?_, ?_⟩
      · rw [copyLoop_exit _ _ _ _ _ hlt]
        simp [applyStores]
      · intro i hi
        simp at hi
      · simp only [List.length_nil]
        omega

/-- When `ebss` leaves room for the last step (no pointer wraps) and enough
iterations are observed, the zeroing loop ends; its stores write 0 to `dst`,
`dst + 8`, ... below `ebss`, and they cover everything up to `ebss`. -/
theorem zeroLoop_run (ebss fuel : Nat) : ∀ (s : St) (dst : Nat),
    ebss + 8 ≤ 4294967296 → ebss ≤ dst + 8 * fuel →
    ∃ l : List Event,
      zeroLoop ebss fuel s dst = LoopResult.done ⟨applyStores l s.mem, s.trace ++ l⟩ ∧
      (∀ i, i < l.length →
        l[i]? = some (Event.store (dst + 8 * i) 0) ∧ dst + 8 * i < ebss) ∧
      ebss ≤ dst + 8 * l.length := by
  induction fuel with
  | zero =>
    intro s dst _ h
    refine ⟨[], ?_, ?_, ?_⟩
    · rw [zeroLoop_exit _ _ _ _ (by omega)]
      simp [applyStores]
    · intro i hi
      simp at hi
    · simpa using h
  | succ fuel ih =>
    intro s dst hw h
    by_cases hlt : dst < ebss
    · rw [zeroLoop_step _ _ _ _ hlt]
      have hd : ptr32 (dst + 8) = dst + 8 := Nat.mod_eq_of_lt (by omega)
      rw [hd]
      obtain ⟨l, hl, hidx, hlen⟩ := ih
        ⟨store64 s.mem dst 0, s.trace ++ [Event.store dst 0]⟩ (dst + 8) hw (by omega)
      refine ⟨Event.store dst 0 :: l, ?_, ?_, ?_⟩
      · rw [hl]
        simp [applyStores]
      · intro i hi
        cases i with
        | zero => exact ⟨by simp, by omega⟩
        | succ j =>
          have hj : j < l.length := by simpa using hi
          obtain ⟨hv, hb⟩ := hidx j hj
          refine ⟨?_, by omega⟩
          rw [List.getElem?_cons_succ, hv]
          congr 2
          omega
      · simp only [List.length_cons]
        omega
    · refine ⟨[], ?_, ?_, ?_⟩
      · rw [zeroLoop_exit _ _ _ _ hlt]
        simp [applyStores]
      · intro i hi
        simp at hi
      · simp only [List.length_nil]
        omega
/-- Bytes outside the `8 * n` bytes from `dst` survive the copy loop, however
long it is observed. -/
theorem copyLoop_mem_outside (n : Nat) : ∀ (fuel : Nat) (s : St) (src dst x : Nat),
    dst + 8 * n + 8 ≤ 4294967296 → x < dst ∨ dst + 8 * n ≤ x →
    (copyLoop (dst + 8 * n) fuel s src dst).state.mem x = s.mem x := by
  induction n with
  | zero =>
    intro fuel s src dst x _ _
    rw [copyLoop_exit _ _ _ _ _ (by omega)]
    rfl
  | succ n ih =>
    intro fuel s src dst x hw hx
    cases fuel with
    | zero =>
      rw [copyLoop_stop _ _ _ _ (by omega)]
      rfl
    | succ fuel =>
      rw [copyLoop_step _ _ _ _ _ (by omega)]
      have hd : ptr32 (dst + 8) = dst + 8 := Nat.mod_eq_of_lt (by omega)
      have e : dst + 8 * (n + 1) = (dst + 8) + 8 * n := by omega
      rw [hd, e, ih _ _ _ _ _ (by omega) (by omega)]
      exact store64_outside _ _ _ _ (by omega) (by omega)

/-- After the copy loop over `8 * n` bytes, destination byte `k` holds the byte
that was at the source address `ptr32 (src + k)`, when no source address lies
in the destination. -/
theorem copyLoop_mem_inside (n : Nat) : ∀ (fuel : Nat) (s : St) (src dst : Nat),
    n ≤ fuel → dst + 8 * n + 8 ≤ 4294967296 →
    (∀ k, k < 8 * n → ptr32 (src + k) < dst ∨ dst + 8 * n ≤ ptr32 (src + k)) →
    ∀ k, k < 8 * n →
      (copyLoop (dst + 8 * n) fuel s src dst).state.mem (dst + k) = s.mem (ptr32 (src + k)) := by
  induction n with
  | zero =>
    intro fuel s src dst _ _ _ k hk
    omega
  | succ n ih =>
    intro fuel s src dst hf hw hsep k hk
    cases fuel with
    | zero => omega
    | succ fuel =>
      rw [copyLoop_step _ _ _ _ _ (by omega)]
      have hd : ptr32 (dst + 8) = dst + 8 := Nat.mod_eq_of_lt (by omega)
      have e : dst + 8 * (n + 1) = (dst + 8) + 8 * n := by omega
      rw [hd, e]
      by_cases hk8 : k < 8
      · rw [copyLoop_mem_outside n _ _ _ _ _ (by omega) (Or.inl (by omega))]
        show store64 s.mem dst (load64 s.mem src) (dst + k) = _
        rw [store64_inside _ _ _ _ (by omega) (by omega) (by omega)]
        have ek : dst + k - dst = k := by omega
        rw [ek, byteOf_load64 _ _ _ hk8]
      · have hsep2 : ∀ j, j < 8 * n →
            ptr32 (ptr32 (src + 8) + j) < dst + 8 ∨ dst + 8 + 8 * n ≤ ptr32 (ptr32 (src + 8) + j) := by
          intro j hj
          have h1 := hsep (j + 8) (by omega)
          have e2 : ptr32 (ptr32 (src + 8) + j) = ptr32 (src + (j + 8)) := by
            simp only [ptr32]
            omega
          rw [e2]
          omega
        have ek : dst + k = dst + 8 + (k - 8) := by omega
        rw [ek, ih _ _ _ _ (by omega) (by omega) hsep2 (k - 8) (by omega)]
        show store64 s.mem dst (load64 s.mem src) (ptr32 (ptr32 (src + 8) + (k - 8))) = _
        have e3 : ptr32 (ptr32 (src + 8) + (k - 8)) = ptr32 (src + k) := by
          simp only [ptr32]
          omega
        rw [e3]
        have h1 := hsep k hk
        exact store64_outside _ _ _ _ (by omega) (by omega)

theorem zeroLoop_mem_outside (n : Nat) : ∀ (fuel : Nat) (s : St) (dst x : Nat),
    dst + 8 * n + 8 ≤ 4294967296 → x < dst ∨ dst + 8 * n ≤ x →
    (zeroLoop (dst + 8 * n) fuel s dst).state.mem x = s.mem x := by
  induction n with
  | zero =>
    intro fuel s dst x _ _
    rw [zeroLoop_exit _ _ _ _ (by omega)]
    rfl
  | succ n ih =>
    intro fuel s dst x hw hx
    cases fuel with
    | zero =>
      rw [zeroLoop_stop _ _ _ (by omega)]
      rfl
    | succ fuel =>
      rw [zeroLoop_step _ _ _ _ (by omega)]
      have hd : ptr32 (dst + 8) = dst + 8 := Nat.mod_eq_of_lt (by omega)
      have e : dst + 8 * (n + 1) = (dst + 8) + 8 * n := by omega
      rw [hd, e, ih _ _ _ _ (by omega) (by omega)]
      exact store64_outside _ _ _ _ (by omega) (by omega)

theorem zeroLoop_mem_inside (n : Nat) : ∀ (fuel : Nat) (s : St) (dst x : Nat),
    n ≤ fuel → dst + 8 * n + 8 ≤ 4294967296 → dst ≤ x → x < dst + 8 * n →
    (zeroLoop (dst + 8 * n) fuel s dst).state.mem x = 0 := by
  induction n with
  | zero =>
    intro fuel s dst x _ _ h1 h2
    omega
  | succ n ih =>
    intro fuel s dst x hf hw h1 h2
    cases fuel with
    | zero => omega
    | succ fuel =>
      rw [zeroLoop_step _ _ _ _ (by omega)]
      have hd : ptr32 (dst + 8) = dst + 8 := Nat.mod_eq_of_lt (by omega)
      have e : dst + 8 * (n + 1) = (dst + 8) + 8 * n := by omega
      rw [hd, e]
      by_cases hx : x < dst + 8
      · rw [zeroLoop_mem_outside n _ _ _ _ (by omega) (Or.inl hx)]
        show store64 s.mem dst 0 x = _
        rw [store64_inside _ _ _ _ (by omega) h1 hx, byteOf_zero]
      · exact ih _ _ _ _ (by omega) (by omega) (by omega) (by omega)

/-! ## Start-up: the function -/

theorem spin_looping (fuel : Nat) : spin fuel = Outcome.looping := by
  induction fuel with
  | zero => rfl
  | succ k ih => rw [spin, ih]

/-- A run whose loops are still going when the observation ends. -/
theorem start_c_running (ext : Callees) (sym : LinkerSyms) (m0 : Mem) (fuel : Nat) (s : St)
    (h : afterZero sym m0 fuel = LoopResult.running s) :
    start_c ext sym m0 fuel = ⟨s.trace, Outcome.busy⟩ := by
  unfold afterZero afterCopy at h
  unfold start_c
  simp only []
  split at h
  · cases h
    rfl
  · rw [h]

/-- A run whose loops have ended in state `s2`: it goes on with the two calls
and what follows them. -/
theorem start_c_done (ext : Callees) (sym : LinkerSyms) (m0 : Mem) (fuel : Nat) (s2 : St)
    (h : afterZero sym m0 fuel = LoopResult.done s2) :
    (start_c ext sym m0 fuel).trace = s2.trace ++ callEvents ext s2.mem ∧
    (start_c ext sym m0 fuel).outcome =
      exitOutcome ext (ext.main (ext.libc_init_array s2.mem) 0 NULL NULL) := by
  unfold afterZero afterCopy at h
  unfold start_c callEvents exitEvents exitOutcome
  simp only []
  split at h
  · cases h
  · rw [h]
    simp only []
    cases hex : ext.exit with
    | none => simp [spin_looping]
    | some f =>
      simp only []
      split <;> simp_all [spin_looping]
/-- Up to the end of the two loops, and however long they are observed, the
trace holds nothing but stores. -/
theorem afterZero_stores (sym : LinkerSyms) (m0 : Mem) (fuel : Nat) :
    ∀ e ∈ (afterZero sym m0 fuel).state.trace, isStore e = true := by
  have hcopy : ∀ e ∈ (afterCopy sym m0 fuel).state.trace, isStore e = true := by
    unfold afterCopy
    split
    · obtain ⟨l, hl, hs⟩ :=
        copyLoop_stores sym._edata fuel ⟨m0, []⟩ (img_start m0 sym) sym._data
      rw [hl]
      simpa using hs
    · intro e he
      simp [LoopResult.state] at he
  unfold afterZero
  cases hc : afterCopy sym m0 fuel with
  | running s =>
    rw [hc] at hcopy
    exact hcopy
  | done s1 =>
    rw [hc] at hcopy
    obtain ⟨l, hl, hs⟩ := zeroLoop_stores sym._ebss fuel s1 sym._bss
    simp only []
    rw [hl]
    intro e he
    rcases List.mem_append.mp he with h | h
    · exact hcopy e h
    · exact hs e h

/-- When neither loop pointer can wrap and enough iterations are observed, both
loops end: first the stores of the copy loop (none when the image is the
destination), then the stores of 0 of the zeroing loop. -/
theorem afterZero_run (sym : LinkerSyms) (m0 : Mem) (fuel : Nat)
    (hE : sym._edata + 8 ≤ 4294967296) (hB : sym._ebss + 8 ≤ 4294967296)
    (hf1 : sym._edata ≤ sym._data + 8 * fuel) (hf2 : sym._ebss ≤ sym._bss + 8 * fuel) :
    ∃ copies zeros : List Event,
      afterZero sym m0 fuel =
        LoopResult.done ⟨applyStores zeros (applyStores copies m0), copies ++ zeros⟩ ∧
      (∀ i, i < copies.length →
        copies[i]? = some (Event.store (sym._data + 8 * i)
          (load64 (applyStores (copies.take i) m0) (ptr32 (img_start m0 sym + 8 * i)))) ∧
        sym._data + 8 * i < sym._edata) ∧
      (if img_start m0 sym = sym._data then copies = []
        else sym._edata ≤ sym._data + 8 * copies.length) ∧
      (∀ j, j < zeros.length →
        zeros[j]? = some (Event.store (sym._bss + 8 * j) 0) ∧
          sym._bss + 8 * j < sym._ebss) ∧
      sym._ebss ≤ sym._bss + 8 * zeros.length := by
  by_cases hsrc : img_start m0 sym = sym._data
  · obtain ⟨zeros, hz, hzi, hzl⟩ := zeroLoop_run sym._ebss fuel ⟨m0, []⟩ sym._bss hB hf2
    refine ⟨[], zeros, ?_, ?_, ?_, hzi, hzl⟩
    · unfold afterZero afterCopy
      simp only [hsrc, ne_eq, not_true_eq_false, if_false]
      rw [hz]
      simp [applyStores]
    · intro i hi
      simp at hi
    · simp [hsrc]
  · obtain ⟨copies, hc, hci, hcl⟩ :=
      copyLoop_run sym._edata fuel ⟨m0, []⟩ (img_start m0 sym) sym._data hE hf1
    obtain ⟨zeros, hz, hzi, hzl⟩ :=
      zeroLoop_run sym._ebss fuel ⟨applyStores copies m0, [] ++ copies⟩ sym._bss hB hf2
    refine ⟨copies, zeros, ?_, hci, ?_, hzi, hzl⟩
    · unfold afterZero afterCopy
      rw [if_pos hsrc, hc]
      simp only []
      rw [hz]
      simp
    · simp [hsrc, hcl]

/-- The memory after both loops, under the layout assumptions: the data
region holds the image bytes and the bss region is zero. -/
theorem afterZero_mem (sym : LinkerSyms) (m0 : Mem) (fuel : Nat)
    (hd : 8 ∣ sym._data) (he : 8 ∣ sym._edata) (hb : 8 ∣ sym._bss) (heb : 8 ∣ sym._ebss)
    (hsep : sym._edata ≤ sym._bss ∨ sym._ebss ≤ sym._data)
    (himg : img_start m0 sym = sym._data ∨
      ∀ k, k < sym._edata - sym._data →
        ptr32 (img_start m0 sym + k) < sym._data ∨
          sym._edata ≤ ptr32 (img_start m0 sym + k))
    (hf1 : sym._edata ≤ sym._data + 8 * fuel) (hf2 : sym._ebss ≤ sym._bss + 8 * fuel) :
    ∃ s2, afterZero sym m0 fuel = LoopResult.done s2 ∧
      (∀ k, k < sym._edata - sym._data →
        s2.mem (sym._data + k) = m0 (ptr32 (img_start m0 sym + k))) ∧
      (∀ x, sym._bss ≤ x → x < sym._ebss → s2.mem x = 0) := by
  have hE : sym._edata + 8 ≤ 4294967296 := by
    have := sym.edata_lt
    omega
  have hB : sym._ebss + 8 ≤ 4294967296 := by
    have := sym.ebss_lt
    omega
  -- the copy phase
  obtain ⟨s1, hs1, hcopy⟩ : ∃ s1, afterCopy sym m0 fuel = LoopResult.done s1 ∧
      ∀ k, k < sym._edata - sym._data →
        s1.mem (sym._data + k) = m0 (ptr32 (img_start m0 sym + k)) := by
    by_cases hsrc : img_start m0 sym = sym._data
    · refine ⟨⟨m0, []⟩, ?_, ?_⟩
      · unfold afterCopy
        simp only [hsrc, ne_eq, not_true_eq_false, if_false]
      · intro k hk
        have e : ptr32 (img_start m0 sym + k) = sym._data + k := by
          rw [hsrc]
          exact Nat.mod_eq_of_lt (by omega)
        rw [e]
    · have hnov := himg.resolve_left hsrc
      obtain ⟨l, hl, _, _⟩ :=
        copyLoop_run sym._edata fuel ⟨m0, []⟩ (img_start m0 sym) sym._data hE hf1
      refine ⟨_, by unfold afterCopy; rw [if_pos hsrc, hl], ?_⟩
      intro k hk
      obtain ⟨n, hn⟩ : ∃ n, sym._edata = sym._data + 8 * n := by
        obtain ⟨a, ha⟩ := hd
        obtain ⟨c, hc⟩ := he
        exact ⟨c - a, by omega⟩
      have hmem := copyLoop_mem_inside n fuel ⟨m0, []⟩ (img_start m0 sym) sym._data
        (by omega) (by omega)
        (fun j hj => by
          have := hnov j (by omega)
          omega)
        k (by omega)
      rw [← hn, hl] at hmem
      exact hmem
  -- the zeroing phase
  obtain ⟨zl, hz, _, _⟩ := zeroLoop_run sym._ebss fuel s1 sym._bss hB hf2
  refine ⟨_, by unfold afterZero; rw [hs1]; exact hz, ?_, ?_⟩
  · intro k hk
    by_cases hle : sym._bss ≤ sym._ebss
    · obtain ⟨n, hn⟩ : ∃ n, sym._ebss = sym._bss + 8 * n := by
        obtain ⟨a, ha⟩ := hb
        obtain ⟨c, hc⟩ := heb
        exact ⟨c - a, by omega⟩
      have hmem := zeroLoop_mem_outside n fuel s1 sym._bss (sym._data + k)
        (by omega) (by omega)
      rw [← hn, hz] at hmem
      rw [← hcopy k hk]
      exact hmem
    · have hex := zeroLoop_exit sym._ebss fuel s1 sym._bss (by omega)
      rw [hz] at hex
      have hm : applyStores zl s1.mem = s1.mem := congrArg St.mem (LoopResult.done.inj hex)
      show applyStores zl s1.mem (sym._data + k) = _
      rw [hm]
      exact hcopy k hk
  · intro x h1 h2
    obtain ⟨n, hn⟩ : ∃ n, sym._ebss = sym._bss + 8 * n := by
      obtain ⟨a, ha⟩ := hb
      obtain ⟨c, hc⟩ := heb
      exact ⟨c - a, by omega⟩
    have hmem := zeroLoop_mem_inside n fuel s1 sym._bss x (by omega) (by omega) h1 (by omega)
    rw [← hn, hz] at hmem
    exact hmem
theorem exitEvents_kinds (ext : Callees) (r : Mem × Int) :
    ∀ e ∈ exitEvents ext r,
      isStore e = false ∧ isInitCall e = false ∧ isMainCall e = false := by
  intro e he
  unfold exitEvents at he
  cases hex : ext.exit with
  | none => simp [hex] at he
  | some f =>
    simp [hex] at he
    subst he
    exact ⟨rfl, rfl, rfl⟩

theorem exitCodes_append (l1 l2 : List Event) :
    exitCodes (l1 ++ l2) = exitCodes l1 ++ exitCodes l2 := by
  induction l1 with
  | nil => rfl
  | cons e es ih =>
    cases e <;> simp [exitCodes, ih]

theorem exitCodes_stores (l : List Event) (h : ∀ e ∈ l, isStore e = true) :
    exitCodes l = [] := by
  induction l with
  | nil => rfl
  | cons e es ih =>
    have he := h e (List.mem_cons_self _ _)
    have hes := ih (fun x hx => h x (List.mem_cons_of_mem _ hx))
    cases e <;> simp_all [exitCodes, isStore]

theorem countP_calls_stores (l : List Event) (h : ∀ e ∈ l, isStore e = true) :
    l.countP isInitCall = 0 ∧ l.countP isMainCall = 0 := by
  constructor <;>
  · rw [List.countP_eq_zero]
    intro e he
    have hs := h e he
    cases e <;> simp_all [isStore, isInitCall, isMainCall]

theorem countP_calls_exitEvents (ext : Callees) (r : Mem × Int) :
    (exitEvents ext r).countP isInitCall = 0 ∧ (exitEvents ext r).countP isMainCall = 0 := by
  constructor <;>
  · rw [List.countP_eq_zero]
    intro e he
    have hk := exitEvents_kinds ext r e he
    simp [hk.2.1, hk.2.2]

/-- The only call of `main` among the events from the initializer call on is
the one on the memory the initializers return. -/
theorem main_mem_callEvents (ext : Callees) (m2 m : Mem) (a : Int) (b c : Nat)
    (h : Event.main m a b c ∈ callEvents ext m2) : m = ext.libc_init_array m2 := by
  unfold callEvents at h
  rcases List.mem_append.mp h with h1 | h1
  · simp at h1
    exact h1.1
  · have := (exitEvents_kinds ext _ _ h1).2.2
    simp [isMainCall] at this

/-- With a `.bss` end of 0xFFFFFFFC an 8-aligned pointer never reaches it: the
zeroing loop is still running after any number of iterations. -/
theorem zeroLoop_wrap_running (fuel : Nat) : ∀ (s : St) (dst : Nat),
    8 ∣ dst → dst < 4294967296 →
    ∃ s2, zeroLoop 0xFFFFFFFC fuel s dst = LoopResult.running s2 := by
  induction fuel with
  | zero =>
    intro s dst h8 hlt
    exact ⟨s, zeroLoop_stop _ _ _ (by omega)⟩
  | succ fuel ih =>
    intro s dst h8 hlt
    rw [zeroLoop_step _ _ _ _ (by omega)]
    apply ih
    · simp only [ptr32]
      omega
    · exact Nat.mod_lt _ (by decide)

theorem afterZero_wrapSyms (m0 : Mem) (fuel : Nat) :
    ∃ s, afterZero wrapSyms m0 fuel = LoopResult.running s := by
  have hc : ∃ s1, afterCopy wrapSyms m0 fuel = LoopResult.done s1 := by
    unfold afterCopy
    split
    · exact ⟨_, copyLoop_exit _ _ _ _ _ (by decide)⟩
    · exact ⟨_, rfl⟩
  obtain ⟨s1, hs1⟩ := hc
  obtain ⟨s, hs⟩ := zeroLoop_wrap_running fuel s1 wrapSyms._bss (by decide) (by decide)
  refine ⟨s, ?_⟩
  unfold afterZero
  rw [hs1]
  exact hs
/-! ## Start-up: main results -/

/-- C4, counterexample: on the sample map (regions 8-byte aligned and disjoint,
image away from `.data`), with initializers that write one byte of `.data` and
one byte of `.bss`, `main` is called with a memory in which that `.data` byte
differs from the image byte and that `.bss` byte is not zero. -/
theorem C4_main_sees_what_initializers_wrote :
    (8 ∣ sampleSyms._data ∧ 8 ∣ sampleSyms._edata ∧ 8 ∣ sampleSyms._bss ∧
      8 ∣ sampleSyms._ebss) ∧
    (sampleSyms._edata ≤ sampleSyms._bss ∨ sampleSyms._ebss ≤ sampleSyms._data) ∧
    (∀ k, k < sampleSyms._edata - sampleSyms._data →
      ptr32 (img_start sampleMem sampleSyms + k) < sampleSyms._data ∨
        sampleSyms._edata ≤ ptr32 (img_start sampleMem sampleSyms + k)) ∧
    ∃ m, Event.main m 0 NULL NULL ∈ (start_c writingCallees sampleSyms sampleMem 2).trace ∧
      m (sampleSyms._data + 1) ≠ sampleMem (ptr32 (img_start sampleMem sampleSyms + 1)) ∧
      m (sampleSyms._bss + 1) ≠ 0 := by
  refine ⟨by decide, by decide, by decide, ?_⟩
  obtain ⟨s2, hs2, _, _⟩ := afterZero_mem sampleSyms sampleMem 2
    (by decide) (by decide) (by decide) (by decide) (by decide) (Or.inr (by decide))
    (by decide) (by decide)
  obtain ⟨htr, _⟩ := start_c_done writingCallees sampleSyms sampleMem 2 s2 hs2
  refine ⟨writingCallees.libc_init_array s2.mem, ?_, ?_, ?_⟩
  · rw [htr]
    simp [callEvents]
  · have h1 : writingCallees.libc_init_array s2.mem (sampleSyms._data + 1) = 0xAA := by
      simp [writingCallees, sampleSyms]
    rw [h1]
    decide
  · have h1 : writingCallees.libc_init_array s2.mem (sampleSyms._bss + 1) = 0xBB := by
      simp [writingCallees, sampleSyms]
    rw [h1]
    decide

/-- C4, amended: when the four region bounds are multiples of 8, the two
regions do not overlap, and no byte of the image (the `_edata - _data` bytes
from `img_start`, addresses taken in the 32-bit address space) lies in
`[_data, _edata)` unless the image starts at `_data`, then every run observed
long enough calls `__libc_init_array` after nothing but the stores of its two
loops, and at that call every byte of `[_data, _edata)` equals the
corresponding byte of the image as it was on entry and every byte of
`[_bss, _ebss)` is zero. `main` is called next, with the memory the
initializers return: there the same holds of each byte they left unchanged. -/
theorem C4_start_c_memory_at_init (ext : Callees) (sym : LinkerSyms) (m0 : Mem) (fuel : Nat)
    (hd : 8 ∣ sym._data) (he : 8 ∣ sym._edata) (hb : 8 ∣ sym._bss) (heb : 8 ∣ sym._ebss)
    (hsep : sym._edata ≤ sym._bss ∨ sym._ebss ≤ sym._data)
    (himg : img_start m0 sym = sym._data ∨
      ∀ k, k < sym._edata - sym._data →
        ptr32 (img_start m0 sym + k) < sym._data ∨
          sym._edata ≤ ptr32 (img_start m0 sym + k))
    (hf1 : sym._edata ≤ sym._data + 8 * fuel) (hf2 : sym._ebss ≤ sym._bss + 8 * fuel) :
    ∃ (m : Mem) (pre post : List Event),
      (start_c ext sym m0 fuel).trace =
        pre ++ Event.libc_init_array m ::
          Event.main (ext.libc_init_array m) 0 NULL NULL :: post ∧
      (∀ e ∈ pre, isStore e = true) ∧
      (∀ e ∈ post, isInitCall e = false ∧ isMainCall e = false) ∧
      (∀ k, k < sym._edata - sym._data →
        m (sym._data + k) = m0 (ptr32 (img_start m0 sym + k))) ∧
      (∀ x, sym._bss ≤ x → x < sym._ebss → m x = 0) ∧
      (∀ k, k < sym._edata - sym._data →
        ext.libc_init_array m (sym._data + k) = m (sym._data + k) →
        ext.libc_init_array m (sym._data + k) = m0 (ptr32 (img_start m0 sym + k))) ∧
      (∀ x, sym._bss ≤ x → x < sym._ebss →
        ext.libc_init_array m x = m x → ext.libc_init_array m x = 0) := by
  obtain ⟨s2, hs2, hdata, hbss⟩ := afterZero_mem sym m0 fuel hd he hb heb hsep himg hf1 hf2
  obtain ⟨htr, _⟩ := start_c_done ext sym m0 fuel s2 hs2
  have hst := afterZero_stores sym m0 fuel
  rw [hs2] at hst
  refine ⟨s2.mem, s2.trace,
    exitEvents ext (ext.main (ext.libc_init_array s2.mem) 0 NULL NULL),
    ?_, hst, ?_, hdata, hbss, ?_, ?_⟩
  · rw [htr]
    simp [callEvents]
  · intro e he
    exact (exitEvents_kinds ext _ e he).2
  · intro k hk hsame
    rw [hsame]
    exact hdata k hk
  · intro x h1 h2 hsame
    rw [hsame]
    exact hbss x h1 h2

/-- Witness for C4: the sample map, where the image at 0x07060504 (bytes 4, 5,
...) replaces what `.data` held (bytes 0, 1, ...) and the 16 bytes of `.bss`
(bytes 16, 17, ...) are cleared. -/
theorem C4_start_c_memory_at_init_witness :
    (8 ∣ sampleSyms._data ∧ 8 ∣ sampleSyms._edata ∧ 8 ∣ sampleSyms._bss ∧
      8 ∣ sampleSyms._ebss) ∧
    (sampleSyms._edata ≤ sampleSyms._bss ∨ sampleSyms._ebss ≤ sampleSyms._data) ∧
    (∀ k, k < sampleSyms._edata - sampleSyms._data →
      ptr32 (img_start sampleMem sampleSyms + k) < sampleSyms._data ∨
        sampleSyms._edata ≤ ptr32 (img_start sampleMem sampleSyms + k)) ∧
    sampleMem (sampleSyms._data + 1) ≠
      sampleMem (ptr32 (img_start sampleMem sampleSyms + 1)) ∧
    sampleMem (sampleSyms._bss + 1) ≠ 0 ∧
    ∃ (m : Mem) (pre post : List Event),
      (start_c sampleCallees sampleSyms sampleMem 2).trace =
        pre ++ Event.libc_init_array m ::
          Event.main (sampleCallees.libc_init_array m) 0 NULL NULL :: post ∧
      (∀ e ∈ pre, isStore e = true) ∧
      (∀ e ∈ post, isInitCall e = false ∧ isMainCall e = false) ∧
      (∀ k, k < sampleSyms._edata - sampleSyms._data →
        m (sampleSyms._data + k) = sampleMem (ptr32 (img_start sampleMem sampleSyms + k))) ∧
      (∀ x, sampleSyms._bss ≤ x → x < sampleSyms._ebss → m x = 0) ∧
      (∀ k, k < sampleSyms._edata - sampleSyms._data →
        sampleCallees.libc_init_array m (sampleSyms._data + k) = m (sampleSyms._data + k) →
        sampleCallees.libc_init_array m (sampleSyms._data + k) =
          sampleMem (ptr32 (img_start sampleMem sampleSyms + k))) ∧
      (∀ x, sampleSyms._bss ≤ x → x < sampleSyms._ebss →
        sampleCallees.libc_init_array m x = m x → sampleCallees.libc_init_array m x = 0) :=
  ⟨by decide, by decide, by decide, by decide, by decide,
    C4_start_c_memory_at_init sampleCallees sampleSyms sampleMem 2
      (by decide) (by decide) (by decide) (by decide) (by decide) (Or.inr (by decide))
      (by decide) (by decide)⟩
/-- C5, counterexample: with `.bss` from 0xFFFFFFF8 to 0xFFFFFFFC the zeroing
pointer wraps to 0 before it reaches `_ebss`; whatever the callees and the
memory, and however long the run is observed, it is still inside the loop and
has called neither `__libc_init_array` nor `main`. -/
theorem C5_wrapping_bss_never_calls :
    wrapSyms._bss = 0xFFFFFFF8 ∧ wrapSyms._ebss = 0xFFFFFFFC ∧
    ∀ (ext : Callees) (m0 : Mem) (fuel : Nat),
      (start_c ext wrapSyms m0 fuel).outcome = Outcome.busy ∧
      (start_c ext wrapSyms m0 fuel).trace.countP isInitCall = 0 ∧
      (start_c ext wrapSyms m0 fuel).trace.countP isMainCall = 0 := by
  refine ⟨rfl, rfl, ?_⟩
  intro ext m0 fuel
  obtain ⟨s, hs⟩ := afterZero_wrapSyms m0 fuel
  have hst := afterZero_stores wrapSyms m0 fuel
  rw [hs] at hst
  rw [start_c_running ext wrapSyms m0 fuel s hs]
  exact ⟨rfl, countP_calls_stores s.trace hst⟩

/-- C5, amended: when `_edata` and `_ebss` are at most 0xFFFFFFF8, so that
neither loop pointer wraps around, the events of every run observed long
enough are, in this order: the stores of the copy loop (at `_data`,
`_data + 8`, ... below `_edata`, the i-th storing the 8 bytes then found at
`img_start + 8 * i`; none when the image is the destination), the stores of 0
of the zeroing loop (at `_bss`, `_bss + 8`, ... below `_ebss`), one call of
`__libc_init_array` on the memory these stores produce, one call of `main`
with arguments `(0, NULL, NULL)`, and then no store and no further call of
either function. -/
theorem C5_start_c_phase_order (ext : Callees) (sym : LinkerSyms) (m0 : Mem) (fuel : Nat)
    (hE : sym._edata + 8 ≤ 4294967296) (hB : sym._ebss + 8 ≤ 4294967296)
    (hf1 : sym._edata ≤ sym._data + 8 * fuel) (hf2 : sym._ebss ≤ sym._bss + 8 * fuel) :
    ∃ (copies zeros tail : List Event) (m : Mem),
      (start_c ext sym m0 fuel).trace =
        copies ++ zeros ++
          [Event.libc_init_array m, Event.main (ext.libc_init_array m) 0 NULL NULL] ++ tail ∧
      m = applyStores zeros (applyStores copies m0) ∧
      (∀ i, i < copies.length →
        copies[i]? = some (Event.store (sym._data + 8 * i)
          (load64 (applyStores (copies.take i) m0) (ptr32 (img_start m0 sym + 8 * i)))) ∧
        sym._data + 8 * i < sym._edata) ∧
      (if img_start m0 sym = sym._data then copies = []
        else sym._edata ≤ sym._data + 8 * copies.length) ∧
      (∀ j, j < zeros.length →
        zeros[j]? = some (Event.store (sym._bss + 8 * j) 0) ∧
          sym._bss + 8 * j < sym._ebss) ∧
      sym._ebss ≤ sym._bss + 8 * zeros.length ∧
      (∀ e ∈ tail, isStore e = false ∧ isInitCall e = false ∧ isMainCall e = false) ∧
      (start_c ext sym m0 fuel).trace.countP isInitCall = 1 ∧
      (start_c ext sym m0 fuel).trace.countP isMainCall = 1 := by
  obtain ⟨copies, zeros, hrun, hci, hcl, hzi, hzl⟩ := afterZero_run sym m0 fuel hE hB hf1 hf2
  obtain ⟨htr, _⟩ := start_c_done ext sym m0 fuel _ hrun
  have hst := afterZero_stores sym m0 fuel
  rw [hrun] at hst
  have hcnt := countP_calls_stores _ hst
  have hex := countP_calls_exitEvents ext
    (ext.main (ext.libc_init_array (applyStores zeros (applyStores copies m0))) 0 NULL NULL)
  simp only [LoopResult.state] at hcnt
  refine ⟨copies, zeros,
    exitEvents ext
      (ext.main (ext.libc_init_array (applyStores zeros (applyStores copies m0))) 0 NULL NULL),
    applyStores zeros (applyStores copies m0), ?_, rfl, hci, hcl, hzi, hzl,
    exitEvents_kinds ext _, ?_, ?_⟩
  · rw [htr]
    simp [callEvents]
  · rw [htr]
    simp only [callEvents, List.countP_append, List.countP_cons, hex.1] at hcnt ⊢
    simp [hcnt.1, isInitCall]
  · rw [htr]
    simp only [callEvents, List.countP_append, List.countP_cons, hex.2] at hcnt ⊢
    simp [hcnt.2, isMainCall]

/-- Witness for C5: the sample map, observed for two iterations per loop. -/
theorem C5_start_c_phase_order_witness :
    sampleSyms._edata + 8 ≤ 4294967296 ∧ sampleSyms._ebss + 8 ≤ 4294967296 ∧
    sampleSyms._edata ≤ sampleSyms._data + 8 * 2 ∧
    sampleSyms._ebss ≤ sampleSyms._bss + 8 * 2 ∧
    ∃ (copies zeros tail : List Event) (m : Mem),
      (start_c sampleCallees sampleSyms sampleMem 2).trace =
        copies ++ zeros ++
          [Event.libc_init_array m,
            Event.main (sampleCallees.libc_init_array m) 0 NULL NULL] ++ tail ∧
      m = applyStores zeros (applyStores copies sampleMem) ∧
      (∀ i, i < copies.length →
        copies[i]? = some (Event.store (sampleSyms._data + 8 * i)
          (load64 (applyStores (copies.take i) sampleMem)
            (ptr32 (img_start sampleMem sampleSyms + 8 * i)))) ∧
        sampleSyms._data + 8 * i < sampleSyms._edata) ∧
      (if img_start sampleMem sampleSyms = sampleSyms._data then copies = []
        else sampleSyms._edata ≤ sampleSyms._data + 8 * copies.length) ∧
      (∀ j, j < zeros.length →
        zeros[j]? = some (Event.store (sampleSyms._bss + 8 * j) 0) ∧
          sampleSyms._bss + 8 * j < sampleSyms._ebss) ∧
      sampleSyms._ebss ≤ sampleSyms._bss + 8 * zeros.length ∧
      (∀ e ∈ tail, isStore e = false ∧ isInitCall e = false ∧ isMainCall e = false) ∧
      (start_c sampleCallees sampleSyms sampleMem 2).trace.countP isInitCall = 1 ∧
      (start_c sampleCallees sampleSyms sampleMem 2).trace.countP isMainCall = 1 :=
  ⟨by decide, by decide, by decide, by decide,
    C5_start_c_phase_order sampleCallees sampleSyms sampleMem 2
      (by decide) (by decide) (by decide) (by decide)⟩

/-- C6: no run of `start_c`, however long it is observed, ends by returning.
A run in which `main` has not been called is still inside the copy or the
zeroing loop and has not called `exit`. A run in which `main` has been called,
on a memory `m`, called it once; when `exit` is not linked the run never calls
it and stays in the endless loop; when `exit` is linked it is called exactly
once, with exactly the value `main` returned on `m`, and the run ends inside
`exit`, or, were `exit` to come back, stays in the endless loop. When neither
loop pointer wraps and the run is observed long enough, `main` has been
called. -/
theorem C6_start_c_never_returns (ext : Callees) (sym : LinkerSyms) (m0 : Mem) (fuel : Nat) :
    (start_c ext sym m0 fuel).outcome ≠ Outcome.returned ∧
    ((start_c ext sym m0 fuel).trace.countP isMainCall = 0 →
      (start_c ext sym m0 fuel).outcome = Outcome.busy ∧
      exitCodes (start_c ext sym m0 fuel).trace = []) ∧
    (∀ m, Event.main m 0 NULL NULL ∈ (start_c ext sym m0 fuel).trace →
      (start_c ext sym m0 fuel).trace.countP isMainCall = 1 ∧
      match ext.exit with
      | none =>
        (start_c ext sym m0 fuel).outcome = Outcome.looping ∧
        exitCodes (start_c ext sym m0 fuel).trace = []
      | some exit_fn =>
        exitCodes (start_c ext sym m0 fuel).trace = [(ext.main m 0 NULL NULL).2] ∧
        (match exit_fn (ext.main m 0 NULL NULL).1 (ext.main m 0 NULL NULL).2 with
          | none =>
            (start_c ext sym m0 fuel).outcome = Outcome.exited (ext.main m 0 NULL NULL).2
          | some _ => (start_c ext sym m0 fuel).outcome = Outcome.looping)) ∧
    (sym._edata + 8 ≤ 4294967296 → sym._ebss + 8 ≤ 4294967296 →
      sym._edata ≤ sym._data + 8 * fuel → sym._ebss ≤ sym._bss + 8 * fuel →
      ∃ m, Event.main m 0 NULL NULL ∈ (start_c ext sym m0 fuel).trace) := by
  have hst := afterZero_stores sym m0 fuel
  cases hz : afterZero sym m0 fuel with
  | running s =>
    rw [hz] at hst
    have hrun := start_c_running ext sym m0 fuel s hz
    have hcodes := exitCodes_stores s.trace hst
    refine ⟨by rw [hrun]; exact Outcome.noConfusion, fun _ => by rw [hrun]; exact ⟨rfl, hcodes⟩,
      ?_, ?_⟩
    · intro m hm
      rw [hrun] at hm
      have := hst _ hm
      simp [isStore] at this
    · intro hE hB hf1 hf2
      obtain ⟨_, _, hdone, _⟩ := afterZero_run sym m0 fuel hE hB hf1 hf2
      rw [hz] at hdone
      cases hdone
  | done s2 =>
    rw [hz] at hst
    obtain ⟨htr, hout⟩ := start_c_done ext sym m0 fuel s2 hz
    have hcodes0 := exitCodes_stores s2.trace hst
    have hcnt := countP_calls_stores s2.trace hst
    have hexc := countP_calls_exitEvents ext
      (ext.main (ext.libc_init_array s2.mem) 0 NULL NULL)
    have hmain1 : (start_c ext sym m0 fuel).trace.countP isMainCall = 1 := by
      rw [htr]
      simp only [callEvents, List.countP_append, List.countP_cons, hexc.2, hcnt.2]
      simp [isMainCall]
    refine ⟨?_, ?_, ?_, ?_⟩
    · rw [hout]
      unfold exitOutcome
      split
      · decide
      · split <;> simp
    · intro h0
      rw [hmain1] at h0
      cases h0
    · intro m hm
      rw [htr] at hm
      have hm2 : m = ext.libc_init_array s2.mem := by
        rcases List.mem_append.mp hm with h1 | h1
        · have := hst _ h1
          simp [isStore] at this
        · exact main_mem_callEvents ext s2.mem m 0 NULL NULL h1
      subst hm2
      refine ⟨hmain1, ?_⟩
      have hcodes : exitCodes (start_c ext sym m0 fuel).trace =
          exitCodes (exitEvents ext (ext.main (ext.libc_init_array s2.mem) 0 NULL NULL)) := by
        rw [htr, exitCodes_append, hcodes0]
        simp [callEvents, exitCodes]
      rw [hcodes, hout]
      unfold exitEvents exitOutcome
      cases hex : ext.exit with
      | none => exact ⟨rfl, rfl⟩
      | some f =>
        refine ⟨rfl, ?_⟩
        simp only []
        split <;> simp_all
    · intro _ _ _ _
      refine ⟨ext.libc_init_array s2.mem, ?_⟩
      rw [htr]
      simp [callEvents]

/-! ## Timer identifiers -/

/-- C7: in both build configurations the valid identifiers of `timer_dev_num`
take the consecutive values 0..K-1 starting with TIMER1 = 0, and the sentinel
TIMER_INVALID has the value K, different from the value of every valid
identifier: K = 4 with TIMER1..TIMER4 = 0..3 when NR_TIMERS < 8; K = 6 with
additionally TIMER5 = 4 and TIMER8 = 5 when NR_TIMERS >= 8. -/
theorem C7_timer_dev_num_values (NR_TIMERS : Nat) :
    (validTimers NR_TIMERS).map (enumValue (timer_dev_num NR_TIMERS)) =
      (List.range (validTimers NR_TIMERS).length).map some ∧
    enumValue (timer_dev_num NR_TIMERS) TimerName.TIMER1 = some 0 ∧
    enumValue (timer_dev_num NR_TIMERS) TimerName.TIMER_INVALID =
      some (validTimers NR_TIMERS).length ∧
    (∀ t ∈ validTimers NR_TIMERS,
      enumValue (timer_dev_num NR_TIMERS) t ≠
        enumValue (timer_dev_num NR_TIMERS) TimerName.TIMER_INVALID) ∧
    (NR_TIMERS < 8 →
      validTimers NR_TIMERS =
        [TimerName.TIMER1, TimerName.TIMER2, TimerName.TIMER3, TimerName.TIMER4] ∧
      (validTimers NR_TIMERS).length = 4 ∧
      enumValue (timer_dev_num NR_TIMERS) TimerName.TIMER_INVALID = some 4) ∧
    (NR_TIMERS ≥ 8 →
      validTimers NR_TIMERS =
        [TimerName.TIMER1, TimerName.TIMER2, TimerName.TIMER3, TimerName.TIMER4,
          TimerName.TIMER5, TimerName.TIMER8] ∧
      (validTimers NR_TIMERS).length = 6 ∧
      enumValue (timer_dev_num NR_TIMERS) TimerName.TIMER5 = some 4 ∧
      enumValue (timer_dev_num NR_TIMERS) TimerName.TIMER8 = some 5 ∧
      enumValue (timer_dev_num NR_TIMERS) TimerName.TIMER_INVALID = some 6) := by
  by_cases h : NR_TIMERS ≥ 8
  · have hl : timer_dev_num NR_TIMERS =
        [TimerName.TIMER1, TimerName.TIMER2, TimerName.TIMER3, TimerName.TIMER4,
          TimerName.TIMER5, TimerName.TIMER8, TimerName.TIMER_INVALID] := by
      simp [timer_dev_num, h]
    have hn : ¬ NR_TIMERS < 8 := by omega
    simp only [validTimers, hl, h, hn]
    decide
  · have hl : timer_dev_num NR_TIMERS =
        [TimerName.TIMER1, TimerName.TIMER2, TimerName.TIMER3, TimerName.TIMER4,
          TimerName.TIMER_INVALID] := by
      simp [timer_dev_num, h]
    have hn : NR_TIMERS < 8 := by omega
    simp only [validTimers, hl, h, hn]
    decide

/-! ## Prototypes and rejected calls -/

theorem resolve_valid (tbl : List timer_dev) (t : Nat) (h : t < tbl.length) :
    resolve tbl t = Except.ok (tbl.get ⟨t, h⟩) := by
  simp [resolve, List.getElem?_eq_getElem h]

/-- C9: for every build, every descriptor table with one descriptor per valid
timer, every valid timer t (0..K-1), every channel c in 1..4 and every V in
0..65535, from every register content: `timer_set_mode(t, c, TIMER_PWM)`
succeeds, then `timer_set_compare_value(t, c, V)` succeeds, and then
`timer_get_compare_value(t, c)` returns exactly V. -/
theorem C9_compare_value_round_trip (NR_TIMERS : Nat) (tbl : List timer_dev)
    (bits : ModeBits) (m : Mem) (t c V : Nat)
    (htbl : tbl.length = (validTimers NR_TIMERS).length)
    (ht : t < (validTimers NR_TIMERS).length) (hc1 : 1 ≤ c) (hc4 : c ≤ 4)
    (hV : V ≤ 65535) :
    ∃ m1 m2, timer_set_mode tbl bits m t c TimerMode.TIMER_PWM = Except.ok m1 ∧
      timer_set_compare_value tbl m1 t c V = Except.ok m2 ∧
      timer_get_compare_value tbl m2 t c = Except.ok V := by
  have hlt : t < tbl.length := by omega
  have hres := resolve_valid tbl t hlt
  have hch : ¬ (c < 1 ∨ 4 < c) := by omega
  obtain ⟨f, hf⟩ : ∃ f, ccrField c = some f := by
    interval_cases c <;> exact ⟨_, rfl⟩
  have hmod : V % 65536 = V := Nat.mod_eq_of_lt (by omega)
  obtain ⟨m1, h1⟩ : ∃ m1, timer_set_mode tbl bits m t c TimerMode.TIMER_PWM = Except.ok m1 := by
    simp only [timer_set_mode, hres, if_neg hch]
    exact ⟨_, rfl⟩
  refine ⟨m1, store16 m1 (regAddr (tbl.get ⟨t, hlt⟩) f) V, h1, ?_, ?_⟩
  · simp only [timer_set_compare_value, hres, hf, hmod]
  · simp only [timer_get_compare_value, hres, hf]
    rw [load16_store16 _ _ _ (by omega)]

/-- Witness for C9: timer 2 (identifier 1), channel 3, value 40000, on a build
with four timers. -/
theorem C9_compare_value_round_trip_witness :
    sampleTable.length = (validTimers 4).length ∧ 1 < (validTimers 4).length ∧
    ∃ m1 m2, timer_set_mode sampleTable sampleBits sampleMem 1 3 TimerMode.TIMER_PWM =
        Except.ok m1 ∧
      timer_set_compare_value sampleTable m1 1 3 40000 = Except.ok m2 ∧
      timer_get_compare_value sampleTable m2 1 3 = Except.ok 40000 :=
  ⟨by decide, by decide,
    C9_compare_value_round_trip 4 sampleTable sampleBits sampleMem 1 3 40000
      (by decide) (by decide) (by decide) (by decide) (by decide)⟩

/-! ## The lookup `TIMER_CCR` -/

theorem lastThree_TIMER_CCR (NUM CHAN : String) :
    lastThree (TIMER_CCR NUM CHAN) = ['R', 'R', 'C'] := by
  simp [lastThree, TIMER_CCR, String.data_append, List.reverse_append]

theorem lastThree_definedNames :
    ∀ name ∈ definedNames, lastThree name ≠ ['R', 'R', 'C'] := by
  decide

theorem TIMER_CCR_not_defined (NUM CHAN : String) : TIMER_CCR NUM CHAN ∉ definedNames :=
  fun h => lastThree_definedNames _ h (lastThree_TIMER_CCR NUM CHAN)

theorem ccrConstantValue_TIMER_CCR (NUM CHAN : String) :
    ccrConstantValue (TIMER_CCR NUM CHAN) = none := by
  unfold ccrConstantValue
  rw [Option.map_eq_none', List.find?_eq_none]
  intro p hp heq
  have hname : p.1 = TIMER_CCR NUM CHAN := by simpa using heq
  apply TIMER_CCR_not_defined NUM CHAN
  rw [← hname]
  unfold definedNames
  exact List.mem_append_right _ (List.mem_map_of_mem _ hp)

/-- C10: for all arguments `NUM` and `CHAN`, `TIMER_CCR(NUM, CHAN)` pastes to
the identifier `TIMER<NUM>_CH<CHAN>_CRR` (for instance `TIMER1_CH1_CRR`,
`TIMER8_CH4_CRR`); that identifier is none of the names the header defines,
whose register constants all end in `_CCR`, so it denotes no address; for the
timers 1, 2, 3, 4, 5, 8 and channels 1..4 the correctly spelt name
`TIMER<n>_CH<c>_CCR` denotes `TIMERn_BASE + 0x30 + 4 * c`, and `TIMER_CCR(n, c)`
does not. -/
theorem C10_TIMER_CCR_names_no_constant (NUM CHAN : String) :
    TIMER_CCR "1" "1" = "TIMER1_CH1_CRR" ∧
    TIMER_CCR "8" "4" = "TIMER8_CH4_CRR" ∧
    lastThree (TIMER_CCR NUM CHAN) = ['R', 'R', 'C'] ∧
    (∀ p ∈ ccrConstants, lastThree p.1 = ['R', 'C', 'C']) ∧
    TIMER_CCR NUM CHAN ∉ definedNames ∧
    ccrConstantValue (TIMER_CCR NUM CHAN) = none ∧
    (∀ n ∈ pwmTimers, ∀ c ∈ channels, ∃ base,
      timerBase n = some base ∧
      ccrConstantValue (ccrConstantName (toString n) (toString c)) =
        some (base + 0x30 + 4 * c) ∧
      ccrConstantValue (TIMER_CCR (toString n) (toString c)) ≠
        some (base + 0x30 + 4 * c)) := by
  refine ⟨by decide, by decide, lastThree_TIMER_CCR NUM CHAN, by decide,
    TIMER_CCR_not_defined NUM CHAN, ccrConstantValue_TIMER_CCR NUM CHAN, ?_⟩
  intro n hn c hc
  simp only [pwmTimers, channels, List.mem_cons, List.mem_singleton, List.not_mem_nil,
    or_false] at hn hc
  rcases hn with rfl | rfl | rfl | rfl | rfl | rfl <;>
    rcases hc with rfl | rfl | rfl | rfl <;>
    exact ⟨_, rfl, by decide, by rw [ccrConstantValue_TIMER_CCR]; exact Option.noConfusion⟩

/-! ## The marker `NOT_A_TIMER` -/

/-- The identifier check accepts exactly the values below the sentinel. -/
theorem acceptsTimerId_iff (NR_TIMERS id : Nat) :
    acceptsTimerId NR_TIMERS id = true ↔ id < (validTimers NR_TIMERS).length := by
  by_cases h : NR_TIMERS ≥ 8
  · have hl : timer_dev_num NR_TIMERS =
        [TimerName.TIMER1, TimerName.TIMER2, TimerName.TIMER3, TimerName.TIMER4,
          TimerName.TIMER5, TimerName.TIMER8, TimerName.TIMER_INVALID] := by
      simp [timer_dev_num, h]
    by_cases hid : id < 7
    · interval_cases id <;> simp only [acceptsTimerId, denotes, validTimers, hl] <;> decide
    · have hd : denotes NR_TIMERS id = [] := by
        unfold denotes
        rw [hl, List.filter_eq_nil_iff]
        intro t _
        cases t <;> simp [enumValue, enumValueFrom] <;> omega
      simp only [acceptsTimerId, hd, validTimers, hl]
      simp
      omega
  · have hl : timer_dev_num NR_TIMERS =
        [TimerName.TIMER1, TimerName.TIMER2, TimerName.TIMER3, TimerName.TIMER4,
          TimerName.TIMER_INVALID] := by
      simp [timer_dev_num, h]
    by_cases hid : id < 5
    · interval_cases id <;> simp only [acceptsTimerId, denotes, validTimers, hl] <;> decide
    · have hd : denotes NR_TIMERS id = [] := by
        unfold denotes
        rw [hl, List.filter_eq_nil_iff]
        intro t _
        cases t <;> simp [enumValue, enumValueFrom] <;> omega
      simp only [acceptsTimerId, hd, validTimers, hl]
      simp
      omega

/-- C11: in both build configurations `NOT_A_TIMER` has the value 0, which is
the value of the valid identifier TIMER1 and of no other enumerator, and which
differs from the value of the sentinel TIMER_INVALID; so the check that rejects
exactly TIMER_INVALID and out-of-range values (and any check that agrees with
it) accepts `NOT_A_TIMER`, as TIMER1, while it rejects the sentinel. -/
theorem C11_NOT_A_TIMER_is_TIMER1 (NR_TIMERS : Nat) :
    NOT_A_TIMER = 0 ∧
    enumValue (timer_dev_num NR_TIMERS) TimerName.TIMER1 = some NOT_A_TIMER ∧
    TimerName.TIMER1 ∈ validTimers NR_TIMERS ∧
    NOT_A_TIMER < (validTimers NR_TIMERS).length ∧
    enumValue (timer_dev_num NR_TIMERS) TimerName.TIMER_INVALID ≠ some NOT_A_TIMER ∧
    denotes NR_TIMERS NOT_A_TIMER = [TimerName.TIMER1] ∧
    acceptsTimerId NR_TIMERS NOT_A_TIMER = true ∧
    acceptsTimerId NR_TIMERS (validTimers NR_TIMERS).length = false ∧
    acceptsTimerId NR_TIMERS ((validTimers NR_TIMERS).length + 1) = false ∧
    (∀ id, acceptsTimerId NR_TIMERS id = true ↔ id < (validTimers NR_TIMERS).length) ∧
    (∀ check : Nat → Bool,
      (∀ id, check id = false ↔
        (enumValue (timer_dev_num NR_TIMERS) TimerName.TIMER_INVALID = some id ∨
          denotes NR_TIMERS id = [])) →
      check NOT_A_TIMER = true) := by
  have hlast : ∀ check : Nat → Bool,
      (∀ id, check id = false ↔
        (enumValue (timer_dev_num NR_TIMERS) TimerName.TIMER_INVALID = some id ∨
          denotes NR_TIMERS id = [])) →
      enumValue (timer_dev_num NR_TIMERS) TimerName.TIMER_INVALID ≠ some NOT_A_TIMER →
      denotes NR_TIMERS NOT_A_TIMER = [TimerName.TIMER1] → check NOT_A_TIMER = true := by
    intro check hc hne hden
    cases hchk : check NOT_A_TIMER with
    | true => rfl
    | false =>
      rcases (hc NOT_A_TIMER).mp hchk with h1 | h2
      · exact absurd h1 hne
      · rw [hden] at h2
        cases h2
  by_cases h : NR_TIMERS ≥ 8
  · have hl : timer_dev_num NR_TIMERS =
        [TimerName.TIMER1, TimerName.TIMER2, TimerName.TIMER3, TimerName.TIMER4,
          TimerName.TIMER5, TimerName.TIMER8, TimerName.TIMER_INVALID] := by
      simp [timer_dev_num, h]
    have hacc : acceptsTimerId NR_TIMERS NOT_A_TIMER = true := by
      simp only [acceptsTimerId, denotes, hl]
      decide
    have hne : enumValue (timer_dev_num NR_TIMERS) TimerName.TIMER_INVALID ≠
        some NOT_A_TIMER := by
      simp only [hl]
      decide
    have hden : denotes NR_TIMERS NOT_A_TIMER = [TimerName.TIMER1] := by
      simp only [denotes, hl]
      decide
    refine ⟨rfl, ?_, ?_, ?_, hne, hden, hacc, ?_, ?_, acceptsTimerId_iff NR_TIMERS,
      fun check hc => hlast check hc hne hden⟩ <;>
      simp only [acceptsTimerId, denotes, validTimers, hl] <;> decide
  · have hl : timer_dev_num NR_TIMERS =
        [TimerName.TIMER1, TimerName.TIMER2, TimerName.TIMER3, TimerName.TIMER4,
          TimerName.TIMER_INVALID] := by
      simp [timer_dev_num, h]
    have hacc : acceptsTimerId NR_TIMERS NOT_A_TIMER = true := by
      simp only [acceptsTimerId, denotes, hl]
      decide
    have hne : enumValue (timer_dev_num NR_TIMERS) TimerName.TIMER_INVALID ≠
        some NOT_A_TIMER := by
      simp only [hl]
      decide
    have hden : denotes NR_TIMERS NOT_A_TIMER = [TimerName.TIMER1] := by
      simp only [denotes, hl]
      decide
    refine ⟨rfl, ?_, ?_, ?_, hne, hden, hacc, ?_, ?_, acceptsTimerId_iff NR_TIMERS,
      fun check hc => hlast check hc hne hden⟩ <;>
      simp only [acceptsTimerId, denotes, validTimers, hl] <;> decide

end Librambutan
